import Mathlib

/-!
Verification development for the py-chess-ai repository.

Shallow embedding of the chess core: the board/position model
(`src/chess_ai/domain/board.py`), the piece movement rules and legality
filter (`src/pieces.py`), and the search engine (`src/engine.py`).

Modelling conventions:
* Python `int` coordinates become `Int`; a cell is an `Int × Int` pair.
* The 8×8 grid `self.cells` (a Python list of lists) becomes
  `List (List (Option Piece))`.
* Python object identity of piece objects is modelled by a numeric `pid`;
  the mutable `piece.cell` back-reference attribute is stored on the board
  as the map `cellOf : Nat → Option Cell` (the source keeps it on the
  piece object; keeping it on the board is the same state, explicitly
  threaded).
* Python exceptions become `Except Err`; a raising call returns `.error`
  and, for the stateful operations, the board as mutated up to the raise.
* Python floats: every score produced by the modelled code paths is an
  integer value (the material bases and the stubbed `Board.evaluate`
  returning `0.0`), so scores are embedded as `Int`.
-/

namespace PyChess

/-- The six chess piece kinds (the closed tagged variant over the source's
`Pawn`, `Rook`, `Knight`, `Bishop`, `Queen`, `King` classes). -/
inductive PieceKind
  | pawn
  | rook
  | knight
  | bishop
  | queen
  | king
deriving DecidableEq

/-- A piece object: identity `pid` (Python object identity), kind and
color flag `white` (source `Piece.__init__`). -/
structure Piece where
  pid : Nat
  kind : PieceKind
  white : Bool
deriving DecidableEq

/-- A cell coordinate pair `(row, column)`, both Python ints. -/
abbrev Cell := Int × Int

/-- Python exceptions raised by the modelled code:
`InvalidRowException` / `InvalidColumnException` from `set_cell`,
the `AttributeError` from reading `.cell` of the `None` returned by
`find_king`, the `TypeError` from unpacking a `None` piece cell in
`get_reachable_cells`, and the `NameError` for an unknown piece code in
`load_from_memory`. -/
inductive Err
  | invalidRow (cell : Cell)
  | invalidColumn (cell : Cell)
  | noneKing
  | noneCell
  | unknownPieceCode
deriving DecidableEq

/-- The 8×8 grid of optional occupants, row 0 (rank 1) first, as in
`self.cells`. -/
abbrev Grid := List (List (Option Piece))

/-- Read grid entry at natural-number indices; total, `none` when out of
range.  All call sites in the modelled code validate `0 ≤ row,col ≤ 7`
before indexing, so Python's negative-index wraparound is never hit. -/
def gridGet (g : Grid) (r c : Nat) : Option Piece :=
  ((g[r]?).getD []).getD c none

/-- Write grid entry `self.cells[row][col] = piece` at natural-number
indices (in-range at every modelled call site). -/
def gridSet (g : Grid) (r c : Nat) (v : Option Piece) : Grid :=
  g.set r (((g[r]?).getD []).set c v)

/-- The board state: the grid, the per-piece `cell` back-references and
the `check_cache` dictionary of `BoardBase.__init__` (an association list
with most-recent-first lookup, matching dict reassignment). -/
structure Board where
  cells : Grid
  cellOf : Nat → Option Cell
  checkCache : List (String × Bool)

/-- The empty 8×8 grid (`[[None]*8]*8`). -/
def emptyGrid : Grid := List.replicate 8 (List.replicate 8 none)

/-- Source `Board.is_valid_cell`: true iff the cell is present and both
coordinates lie in `[0,7]`; `None` is invalid. -/
def is_valid_cell (cell : Option Cell) : Bool :=
  match cell with
  | none => false
  | some (row, col) => (0 ≤ row && row ≤ 7) && (0 ≤ col && col ≤ 7)

/-- Source `BoardBase.get_cell`: the occupant of the cell, or `None` for
invalid (including absent) cells. -/
def get_cell (b : Board) (cell : Option Cell) : Option Piece :=
  if !(is_valid_cell cell) then none
  else
    match cell with
    | none => none
    | some (row, col) => gridGet b.cells row.toNat col.toNat

/-- Source `BoardBase.set_cell`: validates the coordinates (row first,
then column), then, for a non-empty piece, clears the piece's previous
cell (the source does this through a recursive `set_cell(piece.cell,
None)` call; stored piece cells are always in range, so that inner call
never raises and is modelled as the direct grid clear), updates the
piece's stored cell, and finally writes the target grid entry. -/
def set_cell (b : Board) (cell : Cell) (piece : Option Piece) : Except Err Board :=
  if cell.1 < 0 ∨ 8 ≤ cell.1 then .error (.invalidRow (cell.1, cell.2))
  else if cell.2 < 0 ∨ 8 ≤ cell.2 then .error (.invalidColumn (cell.1, cell.2))
  else
    let b1 : Board :=
      match piece with
      | none => b
      | some p =>
        let b0 : Board :=
          match b.cellOf p.pid with
          | some old => { b with cells := gridSet b.cells old.1.toNat old.2.toNat none }
          | none => b
        { b0 with cellOf := fun q => if q = p.pid then some (cell.1, cell.2) else b0.cellOf q }
    .ok { b1 with cells := gridSet b1.cells cell.1.toNat cell.2.toNat piece }

/-- Source `BoardBase.clear_board`: forget all pieces. -/
def clear_board (b : Board) : Board :=
  { b with cells := emptyGrid }

/-- Source `Board.cell_is_valid_and_empty`. -/
def cell_is_valid_and_empty (b : Board) (cell : Cell) : Bool :=
  if !(is_valid_cell (some cell)) then false
  else (get_cell b (some cell)).isNone

/-- Source `Board.piece_can_enter_cell`: valid and (empty or opposing). -/
def piece_can_enter_cell (b : Board) (piece : Piece) (cell : Cell) : Bool :=
  let target := get_cell b (some cell)
  if is_valid_cell (some cell) = false then false
  else
    match target with
    | none => true
    | some t => t.white != piece.white

/-- Source `Board.piece_can_hit_on_cell`: valid and opposing-occupied. -/
def piece_can_hit_on_cell (b : Board) (piece : Piece) (cell : Cell) : Bool :=
  let target := get_cell b (some cell)
  if is_valid_cell (some cell) = false then false
  else
    match target with
    | none => false
    | some t => t.white != piece.white

/-- Source `util.map_piece_to_character`: `.` for empty, an uppercase
letter for a white piece, lowercase for black. -/
def map_piece_to_character (piece : Option Piece) : String :=
  match piece with
  | none => "."
  | some p =>
    let c : Char :=
      match p.kind with
      | .pawn => 'P'
      | .rook => 'R'
      | .knight => 'N'
      | .bishop => 'B'
      | .queen => 'Q'
      | .king => 'K'
    if p.white then String.mk [c] else String.mk [c.toLower]

/-- Model of Python `sep.join(parts)` for a one-character separator,
working on character lists. -/
def py_join (sep : Char) : List (List Char) → List Char
  | [] => []
  | [x] => x
  | x :: y :: xs => x ++ sep :: py_join sep (y :: xs)

/-- Source `BoardBase.hash`: the canonical fingerprint — the 64 piece
characters, rows traversed from rank 8 down to rank 1 (`reversed`),
concatenated with `"".join`. -/
def board_hash (b : Board) : String :=
  String.mk (b.cells.reverse.flatMap (fun row => row.flatMap (fun p => (map_piece_to_character p).data)))

/-- One display line of `BoardBase.__str__`: the 8 piece characters of a
row, space-separated (`" ".join`). -/
def row_line (row : List (Option Piece)) : List Char :=
  py_join ' ' (row.map (fun p => (map_piece_to_character p).data))

/-- Source `BoardBase.__str__`: the 8 display lines, rank 8 first,
newline-separated (`"\n".join`). -/
def board_str (b : Board) : String :=
  String.mk (py_join '\n' (b.cells.reverse.map row_line))

/-- Source `Board.iterate_cells_with_pieces`: all pieces of the given
color in fixed row-major scan order.  The generator yields the piece
objects; the board is restored before the generator is resumed at every
modelled call site, so eager enumeration is equivalent. -/
def iterate_cells_with_pieces (b : Board) (white : Bool) : List Piece :=
  b.cells.flatMap (fun row =>
    row.filterMap (fun cell =>
      match cell with
      | some piece => if piece.white = white then some piece else none
      | none => none))

/-- Source `Board.find_king`: the first piece of the given color whose
class is `King`, or `None`. -/
def find_king (b : Board) (white : Bool) : Option Piece :=
  (iterate_cells_with_pieces b white).find? (fun p => p.kind = .king)

/-! ### Piece movement rules (`src/pieces.py`) -/

/-- Source `Pawn.get_reachable_cells`, called with the pawn's unpacked
cell `(row, column)`: one step forward when empty, the two-step dash from
the starting row when both cells are empty, and the two diagonal-forward
capture cells; appended in the source's order. -/
def pawn_reachable (b : Board) (p : Piece) (row col : Int) : List Cell :=
  if p.white then
    (if cell_is_valid_and_empty b (row + 1, col) then [(row + 1, col)] else []) ++
    (if row = 1 && (cell_is_valid_and_empty b (row + 2, col) && cell_is_valid_and_empty b (row + 1, col)) then
        [(row + 2, col)] else []) ++
    (if piece_can_hit_on_cell b p (row + 1, col + 1) then [(row + 1, col + 1)] else []) ++
    (if piece_can_hit_on_cell b p (row + 1, col - 1) then [(row + 1, col - 1)] else [])
  else
    (if cell_is_valid_and_empty b (row - 1, col) then [(row - 1, col)] else []) ++
    (if row = 6 && (cell_is_valid_and_empty b (row - 2, col) && cell_is_valid_and_empty b (row - 1, col)) then
        [(row - 2, col)] else []) ++
    (if piece_can_hit_on_cell b p (row - 1, col - 1) then [(row - 1, col - 1)] else []) ++
    (if piece_can_hit_on_cell b p (row - 1, col + 1) then [(row - 1, col + 1)] else [])

/-- One sliding ray of the rook/bishop/queen `while True` loop: extend
while valid-and-empty, include an opposing piece and stop, stop at a
board edge or own piece.  The source loop is unbounded; 8 steps always
leave the 8×8 board, so fuel 8 from the first probed cell is exact. -/
def slide_ray (b : Board) (p : Piece) (dr dc : Int) : Nat → Int → Int → List Cell
  | 0, _, _ => []
  | fuel + 1, r, c =>
    if cell_is_valid_and_empty b (r, c) then (r, c) :: slide_ray b p dr dc fuel (r + dr) (c + dc)
    else if piece_can_hit_on_cell b p (r, c) then [(r, c)]
    else []

/-- The union of sliding rays in the given directions (the source
iterates a Python set literal of direction pairs; the order used here is
the literal's written order, and no modelled property depends on it). -/
def slide_all (b : Board) (p : Piece) (row col : Int) (dirs : List (Int × Int)) : List Cell :=
  dirs.flatMap (fun d => slide_ray b p d.1 d.2 8 (row + d.1) (col + d.2))

/-- Rook directions `{(-1,0),(1,0),(0,-1),(0,1)}`. -/
def rook_directions : List (Int × Int) := [(-1, 0), (1, 0), (0, -1), (0, 1)]

/-- Bishop directions `{(-1,-1),(1,-1),(-1,1),(1,1)}`. -/
def bishop_directions : List (Int × Int) := [(-1, -1), (1, -1), (-1, 1), (1, 1)]

/-- Queen directions (rook plus bishop rays). -/
def queen_directions : List (Int × Int) :=
  [(-1, 0), (1, 0), (0, -1), (0, 1), (-1, -1), (1, -1), (-1, 1), (1, 1)]

/-- Knight offsets `{(-2,-1),(-2,1),(2,-1),(2,1),(-1,-2),(-1,2),(1,-2),(1,2)}`. -/
def knight_directions : List (Int × Int) :=
  [(-2, -1), (-2, 1), (2, -1), (2, 1), (-1, -2), (-1, 2), (1, -2), (1, 2)]

/-- King offsets (the 8 adjacent cells, a Python list in the source). -/
def king_directions : List (Int × Int) :=
  [(-1, -1), (-1, 0), (-1, 1), (0, -1), (0, 1), (1, -1), (1, 0), (1, 1)]

/-- Source `Knight.get_reachable_cells`: each offset cell when empty or
opposing-occupied (no path blocking). -/
def knight_reachable (b : Board) (p : Piece) (row col : Int) : List Cell :=
  knight_directions.filterMap (fun d =>
    let t : Cell := (row + d.1, col + d.2)
    if cell_is_valid_and_empty b t then some t
    else if piece_can_hit_on_cell b p t then some t
    else none)

/-- Source `King.get_reachable_cells`: each adjacent cell that can be
entered. -/
def king_reachable (b : Board) (p : Piece) (row col : Int) : List Cell :=
  king_directions.filterMap (fun d =>
    let t : Cell := (row + d.1, col + d.2)
    if piece_can_enter_cell b p t then some t else none)

/-- Dispatch of `get_reachable_cells` over the piece kind, given the
piece's unpacked cell. -/
def reachable_from (b : Board) (p : Piece) (row col : Int) : List Cell :=
  match p.kind with
  | .pawn => pawn_reachable b p row col
  | .rook => slide_all b p row col rook_directions
  | .bishop => slide_all b p row col bishop_directions
  | .queen => slide_all b p row col queen_directions
  | .knight => knight_reachable b p row col
  | .king => king_reachable b p row col

/-- Source `Piece.get_reachable_cells` as called on a piece object:
unpacks `self.cell` (raising when the piece is not placed) and applies
the kind's movement rule. -/
def get_reachable_cells (b : Board) (p : Piece) : Except Err (List Cell) :=
  match b.cellOf p.pid with
  | none => .error .noneCell
  | some (row, col) => .ok (reachable_from b p row col)

/-! ### Check detection (`src/chess_ai/domain/board.py`) -/

/-- The scan inside `Board.is_king_check`: for each opposing piece, get
its reachable cells and return `True` on the first one equal to the
king's cell (`np.array_equal`). -/
def any_reaches (b : Board) (target : Cell) : List Piece → Except Err Bool
  | [] => .ok false
  | p :: rest =>
    match get_reachable_cells b p with
    | .error e => .error e
    | .ok cells =>
      if target ∈ cells then .ok true
      else any_reaches b target rest

/-- Source `Board.is_king_check`: find the king of the given color (the
source dereferences `king.cell` unconditionally, raising when there is no
king — the commented-out `if king is None` guard is dead code), then scan
every opposing piece's reachable cells for the king's cell. -/
def is_king_check (b : Board) (white : Bool) : Except Err Bool :=
  match find_king b white with
  | none => .error .noneKing
  | some king =>
    match b.cellOf king.pid with
    | none => .error .noneCell
    | some kingCell => any_reaches b kingCell (iterate_cells_with_pieces b (!white))

/-- Most-recent-first association-list lookup modelling `hash in cache` /
`cache[hash]`. -/
def cache_lookup (cache : List (String × Bool)) (k : String) : Option Bool :=
  (cache.find? (fun e => e.1 = k)).map (fun e => e.2)

/-- Source `BoardBase.is_king_check_cached`.  The source computes the key
as `hash = self.hash() + "-w" if white else "-b"`, which Python parses as
`hash = (self.hash() + "-w") if white else "-b"`: for a white query the
key is the fingerprint plus `"-w"`, but for a black query the key is the
constant string `"-b"`, independent of the board. -/
def is_king_check_cached (b : Board) (white : Bool) : Except Err (Bool × Board) :=
  let h : String := if white then board_hash b ++ "-w" else "-b"
  match cache_lookup b.checkCache h with
  | some v => .ok (v, b)
  | none =>
    match is_king_check b white with
    | .error e => .error e
    | .ok v => .ok (v, { b with checkCache := (h, v) :: b.checkCache })

/-! ### Legality filter (`Piece.get_valid_cells`, `src/pieces.py`) -/

/-- The simulation loop of `Piece.get_valid_cells`: remember the target's
occupant, place the piece on the target, query the (cached) check
detector for the piece's own color, restore the piece to its original
cell and the remembered occupant to the target, and keep the target iff
the own king was not in check.  A raise leaves the board as mutated so
far, as in Python. -/
def valid_cells_loop (p : Piece) (oldCell : Cell) :
    Board → List Cell → List Cell → Except Err (List Cell) × Board
  | b, [], acc => (.ok acc, b)
  | b, target :: rest, acc =>
    let captured := get_cell b (some target)
    match set_cell b target (some p) with
    | .error e => (.error e, b)
    | .ok b1 =>
      match is_king_check_cached b1 p.white with
      | .error e => (.error e, b1)
      | .ok (kingInCheck, b2) =>
        match set_cell b2 oldCell (some p) with
        | .error e => (.error e, b2)
        | .ok b3 =>
          match set_cell b3 target captured with
          | .error e => (.error e, b3)
          | .ok b4 =>
            valid_cells_loop p oldCell b4 rest (if kingInCheck then acc else acc ++ [target])

/-- Source `Piece.get_valid_cells`: the reachable cells that do not leave
the own king in check, computed by simulate-check-restore.  The source
reads `self.cell` inside `get_reachable_cells` before the `None` guard,
so an unplaced piece raises. -/
def get_valid_cells (b : Board) (p : Piece) : Except Err (List Cell) × Board :=
  match b.cellOf p.pid with
  | none => (.error .noneCell, b)
  | some oldCell =>
    valid_cells_loop p oldCell b (reachable_from b p oldCell.1 oldCell.2) []

/-! ### Evaluation -/

/-- Source `Piece.evaluate` (`src/pieces.py`) on its default
material-only path (`use_heuristics=False`): the color-independent base
value per kind.  The heuristic branch behind `use_heuristics=True` is not
exercised by any modelled caller. -/
def piece_evaluate (p : Piece) : Int :=
  match p.kind with
  | .pawn => 1
  | .knight => 3
  | .bishop => 3
  | .rook => 5
  | .queen => 9
  | .king => 1000

/-- Source `Board.evaluate` (`src/chess_ai/domain/board.py`): the body is
the TODO stub `score = 0.0; return score`, so every position evaluates to
zero. -/
def board_evaluate (_b : Board) : Int := 0

/-- The spec's definition of position evaluation, stated for comparison
with `board_evaluate`: the sum of `score(p)` over white pieces minus the
sum over black pieces. -/
def spec_evaluate (b : Board) : Int :=
  ((iterate_cells_with_pieces b true).map piece_evaluate).sum -
    ((iterate_cells_with_pieces b false).map piece_evaluate).sum

/-! ### Search engine (`src/engine.py`) -/

/-- Source `MinMaxArg`: remaining depth and side to move (default depth
3, default white). -/
structure MinMaxArg where
  depth : Int
  playAsWhite : Bool
deriving DecidableEq

/-- Source `MinMaxArg.next`: depth minus one, side flipped. -/
def MinMaxArg.next (a : MinMaxArg) : MinMaxArg :=
  { depth := a.depth - 1, playAsWhite := !a.playAsWhite }

/-- Source `Move`: piece, target cell and score. -/
structure Move where
  piece : Piece
  cell : Cell
  score : Int
deriving DecidableEq

/-- Python `moves.sort(key=lambda m: m.score, reverse=is_white)`: a
stable sort ascending by score, descending when `reverse` is true.
Python's `list.sort` is a stable mergesort; a stable sort's output is
uniquely determined by the comparator, so the stable `insertionSort` is
the same function. -/
def py_sort_moves (white : Bool) (l : List Move) : List Move :=
  if white then l.insertionSort (fun a b => b.score ≤ a.score)
  else l.insertionSort (fun a b => a.score ≤ b.score)

/-- The inner loop of `evaluate_all_possible_moves`: simulate the move,
record `Move(piece, target, board.evaluate())`, restore. -/
def eval_moves_inner (p : Piece) (originalCell : Cell) :
    Board → List Cell → List Move → Except Err (List Move) × Board
  | b, [], acc => (.ok acc, b)
  | b, target :: rest, acc =>
    let captured := get_cell b (some target)
    match set_cell b target (some p) with
    | .error e => (.error e, b)
    | .ok b1 =>
      let acc2 := acc ++ [{ piece := p, cell := target, score := board_evaluate b1 }]
      match set_cell b1 originalCell (some p) with
      | .error e => (.error e, b1)
      | .ok b2 =>
        match set_cell b2 target captured with
        | .error e => (.error e, b2)
        | .ok b3 => eval_moves_inner p originalCell b3 rest acc2

/-- The outer loop of `evaluate_all_possible_moves`: for every piece of
the side to move, evaluate each of its valid cells; the accumulated move
list is re-sorted after every piece, as in the source. -/
def eval_moves_outer (white : Bool) :
    Board → List Piece → List Move → Except Err (List Move) × Board
  | b, [], moves => (.ok moves, b)
  | b, piece :: rest, moves =>
    match get_valid_cells b piece with
    | (.error e, b1) => (.error e, b1)
    | (.ok valid, b1) =>
      match b1.cellOf piece.pid with
      | none => (.error .noneCell, b1)
      | some originalCell =>
        match eval_moves_inner piece originalCell b1 valid [] with
        | (.error e, b2) => (.error e, b2)
        | (.ok newMoves, b2) =>
          eval_moves_outer white b2 rest (py_sort_moves white (moves ++ newMoves))

/-- Source `evaluate_all_possible_moves(board, minMaxArg,
maximumNumberOfMoves=10)`: all evaluated moves of the side to move,
sorted best-for-the-mover first and truncated by the final slice
`moves[:maximumNumberOfMoves]`. -/
def evaluate_all_possible_moves (b : Board) (minMaxArg : MinMaxArg)
    (maximumNumberOfMoves : Nat) : Except Err (List Move) × Board :=
  match eval_moves_outer minMaxArg.playAsWhite b
      (iterate_cells_with_pieces b minMaxArg.playAsWhite) [] with
  | (.error e, b1) => (.error e, b1)
  | (.ok moves, b1) => (.ok (moves.take maximumNumberOfMoves), b1)

/-- Source `minMax` (`src/engine.py`): the body is the TODO stub — only
the docstring and `# TODO: Implement the Mini-Max algorithm` — so the
Python function returns `None` for every input. -/
def minMax (_b : Board) (_minMaxArg : MinMaxArg) : Option Move := none

/-- The process-wide `eval_cache` dictionary of `src/engine.py`, modelled
as explicitly threaded state (most-recent-first association list). -/
abbrev EvalCache := List (String × Option Move)

/-- Lookup in the search cache. -/
def eval_cache_lookup (cache : EvalCache) (k : String) : Option (Option Move) :=
  (cache.find? (fun e => e.1 = k)).map (fun e => e.2)

/-- Source `minMax_cached`: memoizes `minMax` keyed by
`str(minMaxArg.depth) + board.hash()`; a hit returns the stored result, a
miss computes, stores and returns. -/
def minMax_cached (b : Board) (minMaxArg : MinMaxArg) (cache : EvalCache) :
    Option Move × EvalCache :=
  let h : String := toString minMaxArg.depth ++ board_hash b
  match eval_cache_lookup cache h with
  | some v => (v, cache)
  | none =>
    let bestMove := minMax b minMaxArg
    (bestMove, (h, bestMove) :: cache)

/-! ### Text-format loading (`BoardBase.load_from_memory`) -/

/-- Model of Python `s.split(sep)` for a one-character separator: splits
at every occurrence, keeps empty parts, never merges. -/
def py_split (sep : Char) : List Char → List (List Char)
  | [] => [[]]
  | ch :: rest =>
    match py_split sep rest with
    | [] => [[]]
    | cur :: more => if ch = sep then [] :: cur :: more else (ch :: cur) :: more

/-- Model of Python `line.strip()`: drop whitespace from both ends. -/
def py_strip (l : List Char) : List Char :=
  ((l.dropWhile Char.isWhitespace).reverse.dropWhile Char.isWhitespace).reverse

/-- One token of the load loop: `"."` is skipped (`none`), a known piece
letter gives its color (`isupper`) and kind, anything else would leave
the `piece` variable unbound in the source (`NameError`). -/
def parse_token : List Char → Except Err (Option (Bool × PieceKind))
  | ['.'] => .ok none
  | [c] =>
    let white := c.isUpper
    match c.toUpper with
    | 'P' => .ok (some (white, .pawn))
    | 'K' => .ok (some (white, .king))
    | 'Q' => .ok (some (white, .queen))
    | 'N' => .ok (some (white, .knight))
    | 'B' => .ok (some (white, .bishop))
    | 'R' => .ok (some (white, .rook))
    | _ => .error .unknownPieceCode
  | _ => .error .unknownPieceCode

/-- The inner `for col, pieceCode in enumerate(line.split(" "))` loop of
`load_from_memory`: place a freshly created piece (fresh Python object;
here a fresh pid derived from its position) on cell `(7 - row, col)`. -/
def load_line (rowIdx : Nat) : Nat → Board → List (List Char) → Except Err Board
  | _, b, [] => .ok b
  | col, b, tok :: rest =>
    match parse_token tok with
    | .error e => .error e
    | .ok none => load_line rowIdx (col + 1) b rest
    | .ok (some (white, kind)) =>
      match set_cell b (7 - (rowIdx : Int), (col : Int))
          (some { pid := rowIdx * 8 + col, kind := kind, white := white }) with
      | .error e => .error e
      | .ok b1 => load_line rowIdx (col + 1) b1 rest

/-- The outer `for row, line in enumerate(configString.split("\n"))` loop
of `load_from_memory`. -/
def load_rows : Nat → Board → List (List Char) → Except Err Board
  | _, b, [] => .ok b
  | row, b, line :: rest =>
    match load_line row 0 b (py_split ' ' (py_strip line)) with
    | .error e => .error e
    | .ok b1 => load_rows (row + 1) b1 rest

/-- Source `BoardBase.load_from_memory`: reset the grid, then parse the
text format line by line.  The source mutates the receiver in place
(keeping its `check_cache` and replacing every piece with a fresh
object); the model builds the resulting position from a fresh board,
which is the whole observable grid state. -/
def load_from_memory (s : String) : Except Err Board :=
  load_rows 0 { cells := emptyGrid, cellOf := fun _ => none, checkCache := [] }
    (py_split '\n' s.data)

/-! ### Well-formedness and concrete fixtures -/

/-- A freshly constructed board (`BoardBase.__init__`). -/
def empty_board : Board :=
  { cells := emptyGrid, cellOf := fun _ => none, checkCache := [] }

/-- Build a position by successive `set_cell` placements from an empty
board (direct placement, as the repository's tests do). -/
def board_of (ps : List (Cell × Piece)) : Board :=
  ps.foldl (fun b cp =>
    match set_cell b cp.1 (some cp.2) with
    | .ok b2 => b2
    | .error _ => b) empty_board

/-- Decidable well-formedness check: the grid is 8×8 and every occupant's
stored cell back-reference points at the cell it occupies (the invariant
`cell == c ⇔ grid[c] == piece` maintained by `set_cell`). -/
def wf_bool (b : Board) : Bool :=
  b.cells.length = 8 &&
  b.cells.all (fun row => row.length = 8) &&
  (List.range 8).all (fun r => (List.range 8).all (fun c =>
    match gridGet b.cells r c with
    | none => true
    | some p => b.cellOf p.pid = some ((r : Int), (c : Int))))

/-- Well-formed board: the state invariant of positions built through the
`set_cell` API. -/
def WF (b : Board) : Prop := wf_bool b = true

/-- The grid has 8 rows of 8 columns. -/
def Shape (g : Grid) : Prop :=
  g.length = 8 ∧ ∀ row ∈ g, row.length = 8

/-- Back-reference consistency: every grid occupant's stored cell is the
cell it occupies (the direction of the `cell == c ⇔ grid[c] == piece`
invariant that placement maintains). -/
def Consistent (b : Board) : Prop :=
  ∀ (r c : Nat) (q : Piece),
    gridGet b.cells r c = some q → b.cellOf q.pid = some ((r : Int), (c : Int))

/-- Both coordinates of a cell lie in `[0,7]`. -/
def ValidCell (cell : Cell) : Prop :=
  0 ≤ cell.1 ∧ cell.1 ≤ 7 ∧ 0 ≤ cell.2 ∧ cell.2 ≤ 7

/-- Decidable presence of a king of a color on the grid. -/
def has_king (b : Board) (white : Bool) : Bool :=
  (find_king b white).isSome

/-- Fixture: the black king object used in the check-cache scenarios. -/
def bKing : Piece := { pid := 0, kind := .king, white := false }

/-- Fixture: the white rook object used in the check-cache scenarios. -/
def wRook : Piece := { pid := 1, kind := .rook, white := true }

/-- Fixture board for the check-cache scenario: black king on `(1,0)`,
white rook on `(1,7)` (the rook attacks the king along row 1). -/
def boardA : Board := board_of [((1, 0), bKing), ((1, 7), wRook)]

/-- The fixture board after the first black check query has populated the
cache. -/
def boardA1 : Board :=
  match is_king_check_cached boardA false with
  | .ok (_, b) => b
  | .error _ => boardA

/-- Moving the rook of the queried board to `(7,7)` (same board object,
cache retained): the black king on `(1,0)` is no longer attacked. -/
def boardB : Board :=
  match set_cell boardA1 (7, 7) (some wRook) with
  | .ok b => b
  | .error _ => boardA1

/-- Fixture board for the legality-filter scenario: black king on
`(0,0)`, white rook on `(1,7)`. -/
def boardC : Board := board_of [((0, 0), bKing), ((1, 7), wRook)]

/-- The legality-filter fixture after simulating the king's move to
`(1,0)`, where the rook attacks it along row 1. -/
def boardCsim : Board :=
  match set_cell boardC (1, 0) (some bKing) with
  | .ok b => b
  | .error _ => boardC

/-- Fixture board for the move-ranking scenario: black king on `(0,0)`,
white rook on `(0,7)` (the rook attacks along row 0 and column 7). -/
def boardD : Board := board_of [((0, 0), bKing), ((0, 7), wRook)]

/-- The ranking fixture after moving the black king to `(1,0)` (a cell
the rook does not attack). -/
def boardDsim1 : Board :=
  match set_cell boardD (1, 0) (some bKing) with
  | .ok b => b
  | .error _ => boardD

/-- The ranking fixture after moving the black king to `(1,1)` (a cell
the rook does not attack). -/
def boardDsim2 : Board :=
  match set_cell boardD (1, 1) (some bKing) with
  | .ok b => b
  | .error _ => boardD

/-- Fixture: a white queen object. -/
def wQueen : Piece := { pid := 0, kind := .queen, white := true }

/-- Fixture board with a single white queen on `(0,0)`: unequal material,
so the spec's evaluation is nonzero. -/
def boardQ : Board := board_of [((0, 0), wQueen)]

/-- The boolean value of a check query, discarding the board state (used
to state concrete results without comparing whole boards). -/
def checked_value (r : Except Err (Bool × Board)) : Option Bool :=
  match r with
  | .ok (v, _) => some v
  | .error _ => none

/-! ## Theorems -/

/-- Membership in a conditional singleton list. -/
theorem mem_if_singleton {α : Type} (c : Bool) (x t : α) :
    (t ∈ if c then [x] else []) ↔ (c = true ∧ t = x) := by
  cases c <;> simp

/-- Membership in a conditional singleton list, propositional guard. -/
theorem mem_if_singleton_prop {α : Type} (c : Prop) [Decidable c] (x t : α) :
    (t ∈ if c then [x] else []) ↔ (c ∧ t = x) := by
  by_cases h : c <;> simp [h]

/-- Unfolding `cell_is_valid_and_empty` into the two accessor facts. -/
theorem cell_is_valid_and_empty_iff (b : Board) (cell : Cell) :
    cell_is_valid_and_empty b cell = true ↔
      (is_valid_cell (some cell) = true ∧ get_cell b (some cell) = none) := by
  unfold cell_is_valid_and_empty
  cases h : is_valid_cell (some cell) <;> simp [h, Option.isNone_iff_eq_none]

/-- An invalid cell has no occupant through `get_cell`. -/
theorem get_cell_invalid (b : Board) (cell : Option Cell)
    (h : is_valid_cell cell = false) : get_cell b cell = none := by
  unfold get_cell
  simp [h]

/-- Unfolding `piece_can_hit_on_cell`: the cell holds an opposing piece
(which already forces the cell to be valid). -/
theorem piece_can_hit_on_cell_iff (b : Board) (p : Piece) (cell : Cell) :
    piece_can_hit_on_cell b p cell = true ↔
      ∃ q, get_cell b (some cell) = some q ∧ q.white ≠ p.white := by
  cases hv : is_valid_cell (some cell)
  · simp [piece_can_hit_on_cell, hv, get_cell_invalid b _ hv]
  · cases hg : get_cell b (some cell) <;>
      simp [piece_can_hit_on_cell, hv, hg, bne_iff_ne]

/-- Unfolding `piece_can_enter_cell`: valid and (empty or opposing). -/
theorem piece_can_enter_cell_iff (b : Board) (p : Piece) (cell : Cell) :
    piece_can_enter_cell b p cell = true ↔
      (is_valid_cell (some cell) = true ∧
        (get_cell b (some cell) = none ∨
          ∃ q, get_cell b (some cell) = some q ∧ q.white ≠ p.white)) := by
  cases hv : is_valid_cell (some cell)
  · simp [piece_can_enter_cell, hv]
  · cases hg : get_cell b (some cell) <;>
      simp [piece_can_enter_cell, hv, hg, bne_iff_ne]

/-- Claim C9: for every cell whose row or column lies outside `[0,7]`,
`set_cell` raises an out-of-range error — a row-range error when the row
is out of range (checked first), a column-range error when the row is in
range and the column is not — while the read-only accessors are total:
`get_cell` returns `None` and `is_valid_cell` returns `False`, and
`is_valid_cell` of an absent (`None`) cell returns `False`. -/
theorem out_of_range_accessors (b : Board) (r c : Int) (p : Option Piece)
    (h : ¬ (0 ≤ r ∧ r ≤ 7 ∧ 0 ≤ c ∧ c ≤ 7)) :
    (∃ e, set_cell b (r, c) p = .error e) ∧
    ((r < 0 ∨ 8 ≤ r) → set_cell b (r, c) p = .error (.invalidRow (r, c))) ∧
    ((0 ≤ r ∧ r ≤ 7) → (c < 0 ∨ 8 ≤ c) → set_cell b (r, c) p = .error (.invalidColumn (r, c))) ∧
    get_cell b (some (r, c)) = none ∧
    is_valid_cell (some (r, c)) = false ∧
    is_valid_cell none = false := by
  have hrc : (r < 0 ∨ 8 ≤ r) ∨ ((0 ≤ r ∧ r ≤ 7) ∧ (c < 0 ∨ 8 ≤ c)) := by omega
  have hval : is_valid_cell (some (r, c)) = false := by
    unfold is_valid_cell
    rcases hrc with h1 | ⟨h1, h2⟩ <;>
      simp only [Bool.and_eq_false_iff, decide_eq_false_iff_not] <;> omega
  refine ⟨?_, ?_, ?_, get_cell_invalid b _ hval, hval, rfl⟩
  · rcases hrc with h1 | ⟨h1, h2⟩
    · exact ⟨.invalidRow (r, c), by unfold set_cell; rw [if_pos h1]⟩
    · exact ⟨.invalidColumn (r, c), by unfold set_cell; rw [if_neg (by omega), if_pos h2]⟩
  · intro h1
    unfold set_cell
    rw [if_pos h1]
  · intro h1 h2
    unfold set_cell
    rw [if_neg (by omega), if_pos h2]

/-- Claim C7: a pawn reaches exactly (1) the single forward cell (row +1
for white, -1 for black) when it is on the board and empty, (2) the
two-cell dash only from its starting row (1 for white, 6 for black) and
only when both the intermediate and the destination cell are on the
board and empty, and (3) either adjacent forward-diagonal cell only when
it contains an opposing piece; nothing else (no en-passant). -/
theorem pawn_reachable_cells_exact (b : Board) (p : Piece) (row col : Int) (t : Cell) :
    t ∈ pawn_reachable b p row col ↔
      ((t = ((if p.white then row + 1 else row - 1), col) ∧
          is_valid_cell (some t) = true ∧ get_cell b (some t) = none) ∨
        (t = ((if p.white then row + 2 else row - 2), col) ∧
          row = (if p.white then 1 else 6) ∧
          is_valid_cell (some t) = true ∧ get_cell b (some t) = none ∧
          is_valid_cell (some ((if p.white then row + 1 else row - 1), col)) = true ∧
          get_cell b (some ((if p.white then row + 1 else row - 1), col)) = none) ∨
        ((t = ((if p.white then row + 1 else row - 1), col + 1) ∨
            t = ((if p.white then row + 1 else row - 1), col - 1)) ∧
          ∃ q, get_cell b (some t) = some q ∧ q.white ≠ p.white)) := by
  cases hw : p.white <;>
    simp only [pawn_reachable, hw, if_true, if_false, Bool.false_eq_true, List.mem_append,
      mem_if_singleton, mem_if_singleton_prop, Bool.and_eq_true, decide_eq_true_eq,
      cell_is_valid_and_empty_iff, piece_can_hit_on_cell_iff]
  · constructor
    · rintro (((⟨⟨h1, h2⟩, rfl⟩ | ⟨⟨h0, ⟨h1, h2⟩, h3, h4⟩, rfl⟩) | ⟨hq, rfl⟩) | ⟨hq, rfl⟩)
      · exact Or.inl ⟨rfl, h1, h2⟩
      · exact Or.inr (Or.inl ⟨rfl, h0, h1, h2, h3, h4⟩)
      · exact Or.inr (Or.inr ⟨Or.inr rfl, hq⟩)
      · exact Or.inr (Or.inr ⟨Or.inl rfl, hq⟩)
    · rintro (⟨rfl, h1, h2⟩ | ⟨rfl, h0, h1, h2, h3, h4⟩ | ⟨rfl | rfl, hq⟩)
      · exact Or.inl (Or.inl (Or.inl ⟨⟨h1, h2⟩, rfl⟩))
      · exact Or.inl (Or.inl (Or.inr ⟨⟨h0, ⟨h1, h2⟩, h3, h4⟩, rfl⟩))
      · exact Or.inr ⟨hq, rfl⟩
      · exact Or.inl (Or.inr ⟨hq, rfl⟩)
  · constructor
    · rintro (((⟨⟨h1, h2⟩, rfl⟩ | ⟨⟨h0, ⟨h1, h2⟩, h3, h4⟩, rfl⟩) | ⟨hq, rfl⟩) | ⟨hq, rfl⟩)
      · exact Or.inl ⟨rfl, h1, h2⟩
      · exact Or.inr (Or.inl ⟨rfl, h0, h1, h2, h3, h4⟩)
      · exact Or.inr (Or.inr ⟨Or.inl rfl, hq⟩)
      · exact Or.inr (Or.inr ⟨Or.inr rfl, hq⟩)
    · rintro (⟨rfl, h1, h2⟩ | ⟨rfl, h0, h1, h2, h3, h4⟩ | ⟨rfl | rfl, hq⟩)
      · exact Or.inl (Or.inl (Or.inl ⟨⟨h1, h2⟩, rfl⟩))
      · exact Or.inl (Or.inl (Or.inr ⟨⟨h0, ⟨h1, h2⟩, h3, h4⟩, rfl⟩))
      · exact Or.inl (Or.inr ⟨hq, rfl⟩)
      · exact Or.inr ⟨hq, rfl⟩

/-- Claim C1 (refuting evidence): the cache key computed by
`is_king_check_cached` for a black query is the constant `"-b"` (operator
precedence in `self.hash() + "-w" if white else "-b"`), so a cached black
result is reused for a *different* board fingerprint.  On `boardA` (black
king `(1,0)` attacked by the rook on `(1,7)`) the first query honestly
returns and caches `True`; after moving the rook to `(7,7)` the honest
`is_king_check` says `False`, but the cached query still returns the
stale `True`. -/
theorem is_king_check_cached_stale_black :
    checked_value (is_king_check_cached boardA false) = some true ∧
    is_king_check boardB false = .ok false ∧
    checked_value (is_king_check_cached boardB false) = some true := by
  refine ⟨?_, ?_, ?_⟩ <;> rfl

/-- Claim C2 (refuting evidence): `Board.evaluate` is the TODO stub that
returns `0.0` for every position, while the spec's material sum on the
single-white-queen board is `9`; so the claimed equality (and the claimed
nonzero value on unequal material) fails. -/
theorem board_evaluate_is_stub :
    (∀ b : Board, board_evaluate b = 0) ∧
    board_evaluate boardQ = 0 ∧
    spec_evaluate boardQ = 9 ∧
    (9 : Int) ≠ 0 := by
  refine ⟨fun _ => rfl, rfl, ?_, by decide⟩
  rfl

/-- Claim C3 (refuting evidence): `minMax` is the TODO stub — its body is
only the docstring and `# TODO` comment — so the Python function returns
`None` for every input, in particular on the empty board (no legal moves)
where the claim requires a sentinel `Move` with score `-∞` for white. -/
theorem minMax_is_stub :
    minMax empty_board { depth := 3, playAsWhite := true } = none ∧
    ∀ (b : Board) (minMaxArg : MinMaxArg), minMax b minMaxArg = none :=
  ⟨rfl, fun _ _ => rfl⟩

/-- Claim C4 (refuting evidence): on `boardC` (black king `(0,0)`, white
rook `(1,7)`), `get_valid_cells` of the black king returns all three
reachable cells, although moving to `(1,0)` (and likewise `(1,1)`) leaves
the black king attacked by the rook along row 1: the first simulated
position `(0,1)` is honestly evaluated as safe and cached under the
constant black key `"-b"`, and the later simulations reuse that stale
entry instead of evaluating their own positions. -/
theorem get_valid_cells_keeps_check_leaving_cell :
    (get_valid_cells boardC bKing).1 = .ok [(0, 1), (1, 0), (1, 1)] ∧
    is_king_check boardCsim false = .ok true := by
  refine ⟨?_, ?_⟩ <;> rfl

/-- Claim C6 (refuting evidence): on `boardD` (black king `(0,0)`, white
rook `(0,7)`), black has exactly two legal moves — the king's three
reachable cells are `(0,1)`, `(1,0)`, `(1,1)`, of which the latter two
leave the king out of check — yet `evaluate_all_possible_moves` for black
with `limit = 2` returns the empty list instead of exactly two entries:
the first simulation (to the attacked `(0,1)`) caches `True` under the
constant black cache key `"-b"`, and the stale entry is replayed for the
two legal cells. -/
theorem evaluate_all_possible_moves_misses_legal_moves :
    (evaluate_all_possible_moves boardD { depth := 3, playAsWhite := false } 2).1 = .ok [] ∧
    reachable_from boardD bKing 0 0 = [(0, 1), (1, 0), (1, 1)] ∧
    is_king_check boardDsim1 false = .ok false ∧
    is_king_check boardDsim2 false = .ok false := by
  refine ⟨?_, ?_, ?_, ?_⟩ <;> rfl

/-- Claim C8: `minMax_cached` returns the same result as the uncached
`minMax` — keyed by `str(depth) + fingerprint`, a hit returns the stored
result unchanged and a miss computes, stores and returns it.  Every value
ever stored is a `minMax` result, and the stubbed `minMax` is the
constant `None`, so on every reachable cache (all stored values `none`)
the cached and uncached searches agree. -/
theorem minMax_cached_eq_minMax (b : Board) (minMaxArg : MinMaxArg) (cache : EvalCache)
    (hc : ∀ kv ∈ cache, kv.2 = none) :
    (minMax_cached b minMaxArg cache).1 = minMax b minMaxArg ∧
    (eval_cache_lookup cache (toString minMaxArg.depth ++ board_hash b) = none →
      minMax_cached b minMaxArg cache =
        (minMax b minMaxArg,
          (toString minMaxArg.depth ++ board_hash b, minMax b minMaxArg) :: cache)) ∧
    (∀ v, eval_cache_lookup cache (toString minMaxArg.depth ++ board_hash b) = some v →
      minMax_cached b minMaxArg cache = (v, cache)) := by
  have hmem : ∀ v, eval_cache_lookup cache (toString minMaxArg.depth ++ board_hash b) = some v →
      ∃ kv ∈ cache, kv.2 = v := by
    intro v h
    unfold eval_cache_lookup at h
    cases hf : cache.find? (fun e => e.1 = toString minMaxArg.depth ++ board_hash b) with
    | none => rw [hf] at h; simp at h
    | some kv =>
      rw [hf] at h
      exact ⟨kv, List.mem_of_find?_eq_some hf, by simpa using h⟩
  have key : minMax_cached b minMaxArg cache =
      (match eval_cache_lookup cache (toString minMaxArg.depth ++ board_hash b) with
       | some v => (v, cache)
       | none => (minMax b minMaxArg,
           (toString minMaxArg.depth ++ board_hash b, minMax b minMaxArg) :: cache)) := rfl
  refine ⟨?_, ?_, ?_⟩
  · rw [key]
    cases h : eval_cache_lookup cache (toString minMaxArg.depth ++ board_hash b) with
    | none => rfl
    | some v =>
      obtain ⟨kv, hkv, hv⟩ := hmem v h
      have hv0 : v = none := hv.symm.trans (hc kv hkv)
      simp [hv0, minMax]
  · intro h
    rw [key, h]
  · intro v h
    rw [key, h]

/-- Witness for C8 with the empty cache on the empty board. -/
theorem minMax_cached_eq_minMax_witness :
    (∀ kv ∈ ([] : EvalCache), kv.2 = none) ∧
      (minMax_cached empty_board { depth := 3, playAsWhite := true } []).1 =
        minMax empty_board { depth := 3, playAsWhite := true } :=
  ⟨by simp, (minMax_cached_eq_minMax empty_board { depth := 3, playAsWhite := true } []
    (by simp)).1⟩

/-- Reading a grid entry through `getElem?`. -/
theorem gridGet_eq (g : Grid) (r c : Nat) :
    gridGet g r c = (((g[r]?).getD [])[c]?).getD none := by
  unfold gridGet
  rw [List.getD_eq_getElem?_getD]

/-- `gridSet` preserves the number of rows. -/
theorem length_gridSet (g : Grid) (r c : Nat) (v : Option Piece) :
    (gridSet g r c v).length = g.length := by
  unfold gridSet
  exact List.length_set g r _

/-- `gridSet` at an in-range row preserves the 8×8 shape. -/
theorem shape_gridSet (g : Grid) (r c : Nat) (v : Option Piece) (h : Shape g)
    (hr : r < 8) : Shape (gridSet g r c v) := by
  obtain ⟨hlen, hrow⟩ := h
  refine ⟨by rw [length_gridSet, hlen], ?_⟩
  intro row hmem
  rcases List.mem_or_eq_of_mem_set hmem with h1 | h1
  · exact hrow row h1
  · subst h1
    rw [List.length_set]
    have hrl : r < g.length := by omega
    rw [List.getElem?_eq_getElem hrl]
    exact hrow g[r] (List.getElem_mem hrl)

/-- The written entry of `gridSet`. -/
theorem gridGet_gridSet_same (g : Grid) (r c : Nat) (v : Option Piece)
    (hshape : Shape g) (hr : r < 8) (hc : c < 8) :
    gridGet (gridSet g r c v) r c = v := by
  obtain ⟨hlen, hrow⟩ := hshape
  have hrl : r < g.length := by omega
  have hgr : g[r]? = some g[r] := List.getElem?_eq_getElem hrl
  have hcl : c < (((g[r]?).getD [])).length := by
    rw [hgr]
    simpa using by
      have := hrow g[r] (List.getElem_mem hrl)
      omega
  rw [gridGet_eq]
  unfold gridSet
  rw [List.getElem?_set_self (by omega)]
  simp only [Option.getD_some]
  rw [List.getElem?_set_self hcl]
  rfl

/-- The other entries of `gridSet` are unchanged. -/
theorem gridGet_gridSet_ne (g : Grid) (r c r' c' : Nat) (v : Option Piece)
    (hshape : Shape g) (hr : r < 8) (hne : (r, c) ≠ (r', c')) :
    gridGet (gridSet g r c v) r' c' = gridGet g r' c' := by
  obtain ⟨hlen, hrow⟩ := hshape
  have hrl : r < g.length := by omega
  rw [gridGet_eq, gridGet_eq]
  unfold gridSet
  by_cases h1 : r = r'
  · subst h1
    have h2 : c ≠ c' := by
      intro h
      exact hne (by rw [h])
    rw [List.getElem?_set_self hrl]
    have hgr : g[r]? = some g[r] := List.getElem?_eq_getElem hrl
    rw [hgr]
    simp only [Option.getD_some]
    rw [List.getElem?_set_ne h2]
  · rw [List.getElem?_set_ne h1]

/-- Two 8×8 grids with the same entries are equal. -/
theorem grid_ext (g1 g2 : Grid) (h1 : Shape g1) (h2 : Shape g2)
    (h : ∀ r c, r < 8 → c < 8 → gridGet g1 r c = gridGet g2 r c) : g1 = g2 := by
  obtain ⟨hlen1, hrow1⟩ := h1
  obtain ⟨hlen2, hrow2⟩ := h2
  refine List.ext_getElem (by omega) ?_
  intro n hn1 hn2
  have hn8 : n < 8 := by omega
  refine List.ext_getElem ?_ ?_
  · rw [hrow1 g1[n] (List.getElem_mem hn1), hrow2 g2[n] (List.getElem_mem hn2)]
  · intro m hm1 hm2
    have hm8 : m < 8 := by
      have := hrow1 g1[n] (List.getElem_mem hn1)
      omega
    have e1 : gridGet g1 n m = g1[n][m] := by
      rw [gridGet_eq, List.getElem?_eq_getElem hn1]
      simp only [Option.getD_some]
      rw [List.getElem?_eq_getElem hm1]
      rfl
    have e2 : gridGet g2 n m = g2[n][m] := by
      rw [gridGet_eq, List.getElem?_eq_getElem hn2]
      simp only [Option.getD_some]
      rw [List.getElem?_eq_getElem hm2]
      rfl
    have := h n m hn8 hm8
    rw [e1, e2] at this
    exact this

/-- Out-of-range grid reads give `none`. -/
theorem gridGet_oob (g : Grid) (r c : Nat) (hshape : Shape g) (h : 8 ≤ r ∨ 8 ≤ c) :
    gridGet g r c = none := by
  obtain ⟨hlen, hrow⟩ := hshape
  rw [gridGet_eq]
  rcases h with h | h
  · rw [List.getElem?_eq_none (show g.length ≤ r by omega)]
    simp
  · by_cases hr : r < 8
    · have hrl : r < g.length := by omega
      rw [List.getElem?_eq_getElem hrl]
      simp only [Option.getD_some]
      rw [List.getElem?_eq_none (show g[r].length ≤ c by
        rw [hrow g[r] (List.getElem_mem hrl)]; omega)]
      rfl
    · rw [List.getElem?_eq_none (show g.length ≤ r by omega)]
      simp

/-- A well-formed board has an 8×8 grid. -/
theorem WF_shape (b : Board) (h : WF b) : Shape b.cells := by
  unfold WF wf_bool at h
  simp only [Bool.and_eq_true, decide_eq_true_eq, List.all_eq_true] at h
  exact ⟨h.1.1, h.1.2⟩

/-- A well-formed board is back-reference consistent. -/
theorem WF_consistent (b : Board) (h : WF b) : Consistent b := by
  have hshape := WF_shape b h
  unfold WF wf_bool at h
  simp only [Bool.and_eq_true, decide_eq_true_eq, List.all_eq_true] at h
  intro r c q hq
  by_cases hr : r < 8
  · by_cases hc : c < 8
    · have := h.2 r (List.mem_range.mpr hr) c (List.mem_range.mpr hc)
      rw [hq] at this
      simpa using this
    · rw [gridGet_oob b.cells r c hshape (Or.inr (by omega))] at hq
      exact absurd hq (by simp)
  · rw [gridGet_oob b.cells r c hshape (Or.inl (by omega))] at hq
    exact absurd hq (by simp)

/-- `is_valid_cell` in propositional form. -/
theorem is_valid_cell_iff (cell : Cell) :
    is_valid_cell (some cell) = true ↔ ValidCell cell := by
  cases cell with
  | mk r c =>
    unfold is_valid_cell ValidCell
    simp [and_assoc]

/-- `get_cell` on a valid cell reads the grid. -/
theorem get_cell_valid_eq (b : Board) (cell : Cell) (h : ValidCell cell) :
    get_cell b (some cell) = gridGet b.cells cell.1.toNat cell.2.toNat := by
  unfold get_cell
  rw [if_neg (by
    rw [show is_valid_cell (some cell) = true from (is_valid_cell_iff cell).mpr h]
    simp)]

/-- `set_cell` with a piece whose stored cell is `old`. -/
theorem set_cell_some_eq (b : Board) (cell : Cell) (p : Piece) (old : Cell)
    (hv : ValidCell cell) (hold : b.cellOf p.pid = some old) :
    set_cell b cell (some p) = .ok
      { cells := gridSet (gridSet b.cells old.1.toNat old.2.toNat none)
          cell.1.toNat cell.2.toNat (some p),
        cellOf := fun q => if q = p.pid then some (cell.1, cell.2) else b.cellOf q,
        checkCache := b.checkCache } := by
  obtain ⟨h1, h2, h3, h4⟩ := hv
  simp only [set_cell]
  rw [if_neg (by omega), if_neg (by omega), hold]

/-- `set_cell` with a freshly created piece (no stored cell). -/
theorem set_cell_fresh_eq (b : Board) (cell : Cell) (p : Piece)
    (hv : ValidCell cell) (hold : b.cellOf p.pid = none) :
    set_cell b cell (some p) = .ok
      { cells := gridSet b.cells cell.1.toNat cell.2.toNat (some p),
        cellOf := fun q => if q = p.pid then some (cell.1, cell.2) else b.cellOf q,
        checkCache := b.checkCache } := by
  obtain ⟨h1, h2, h3, h4⟩ := hv
  simp only [set_cell]
  rw [if_neg (by omega), if_neg (by omega), hold]

/-- `set_cell` clearing a cell. -/
theorem set_cell_none_eq (b : Board) (cell : Cell) (hv : ValidCell cell) :
    set_cell b cell none = .ok
      { b with cells := gridSet b.cells cell.1.toNat cell.2.toNat none } := by
  obtain ⟨h1, h2, h3, h4⟩ := hv
  simp only [set_cell]
  rw [if_neg (by omega), if_neg (by omega)]

/-- Dissecting membership in `iterate_cells_with_pieces`: the piece has
the requested color and sits somewhere on the grid. -/
theorem mem_iterate_elim (b : Board) (white : Bool) (q : Piece)
    (h : q ∈ iterate_cells_with_pieces b white) :
    q.white = white ∧ ∃ r c, r < b.cells.length ∧ gridGet b.cells r c = some q := by
  unfold iterate_cells_with_pieces at h
  rw [List.mem_flatMap] at h
  obtain ⟨row, hrow, hq⟩ := h
  rw [List.mem_filterMap] at hq
  obtain ⟨cell, hcell, hc⟩ := hq
  cases cell with
  | none => simp at hc
  | some piece =>
    dsimp only at hc
    by_cases hw : piece.white = white
    · rw [if_pos hw] at hc
      obtain rfl := Option.some.inj hc
      refine ⟨hw, ?_⟩
      obtain ⟨r, hr, hrEq⟩ := List.mem_iff_getElem.mp hrow
      obtain ⟨c, hcl, hcEq⟩ := List.mem_iff_getElem.mp hcell
      refine ⟨r, c, hr, ?_⟩
      rw [gridGet_eq, List.getElem?_eq_getElem hr]
      simp only [Option.getD_some]
      rw [hrEq, List.getElem?_eq_getElem hcl, hcEq]
      rfl
    · rw [if_neg hw] at hc
      simp at hc

/-- A grid occupant of the requested color is yielded by
`iterate_cells_with_pieces`. -/
theorem gridGet_mem_iterate (b : Board) (white : Bool) (q : Piece) (r c : Nat)
    (hshape : Shape b.cells) (hr : r < 8)
    (hq : gridGet b.cells r c = some q) (hw : q.white = white) :
    q ∈ iterate_cells_with_pieces b white := by
  obtain ⟨hlen, hrow⟩ := hshape
  have hrl : r < b.cells.length := by omega
  unfold iterate_cells_with_pieces
  rw [List.mem_flatMap]
  refine ⟨b.cells[r], List.getElem_mem hrl, ?_⟩
  rw [List.mem_filterMap]
  refine ⟨some q, ?_, by simp [hw]⟩
  rw [gridGet_eq, List.getElem?_eq_getElem hrl] at hq
  simp only [Option.getD_some] at hq
  have hcl : c < b.cells[r].length := by
    by_contra hcl
    rw [List.getElem?_eq_none (by omega)] at hq
    exact absurd hq (by simp)
  rw [List.getElem?_eq_getElem hcl] at hq
  have : b.cells[r][c] = some q := by simpa using hq
  exact this ▸ List.getElem_mem hcl

/-- Every piece the iteration yields has a stored cell, so the opponent
scan of `is_king_check` never raises. -/
theorem any_reaches_ok (b : Board) (target : Cell) (ps : List Piece)
    (h : ∀ q ∈ ps, (b.cellOf q.pid).isSome) :
    ∃ v, any_reaches b target ps = .ok v := by
  induction ps with
  | nil => exact ⟨false, rfl⟩
  | cons q rest ih =>
    have hq := h q (by simp)
    cases hcell : b.cellOf q.pid with
    | none => rw [hcell] at hq; simp at hq
    | some pos =>
      cases pos with
      | mk row col =>
        obtain ⟨v, hv⟩ := ih (fun x hx => h x (by simp [hx]))
        unfold any_reaches get_reachable_cells
        by_cases hmem : target ∈ reachable_from b q row col
        · exact ⟨true, by simp [hcell, hmem, hv]⟩
        · exact ⟨v, by simp [hcell, hmem, hv]⟩

/-- `is_king_check` returns a value (no raise) on every consistent board
that has a king of the queried color. -/
theorem is_king_check_ok (b : Board) (white : Bool)
    (hshape : Shape b.cells) (hcons : Consistent b)
    (hking : ∃ r c q, r < 8 ∧ gridGet b.cells r c = some q ∧
      q.kind = .king ∧ q.white = white) :
    ∃ v, is_king_check b white = .ok v := by
  obtain ⟨r, c, q, hr, hq, hkind, hw⟩ := hking
  have hmem := gridGet_mem_iterate b white q r c hshape hr hq hw
  have hfind : ((iterate_cells_with_pieces b white).find? (fun p => p.kind = .king)).isSome := by
    rw [List.find?_isSome]
    exact ⟨q, hmem, by simp [hkind]⟩
  obtain ⟨king, hf⟩ := Option.isSome_iff_exists.mp hfind
  have hkmem := List.mem_of_find?_eq_some hf
  obtain ⟨_, kr, kc, _, hkq⟩ := mem_iterate_elim b white king hkmem
  have hkcell := hcons kr kc king hkq
  obtain ⟨v, hv⟩ := any_reaches_ok b ((kr : Int), (kc : Int))
    (iterate_cells_with_pieces b (!white)) (fun x hx => by
      obtain ⟨_, xr, xc, _, hxq⟩ := mem_iterate_elim b (!white) x hx
      rw [hcons xr xc x hxq]
      rfl)
  refine ⟨v, ?_⟩
  unfold is_king_check find_king
  simp only [hf, hkcell]
  exact hv

/-- `is_king_check_cached` returns a value and leaves the grid and the
back-references untouched (only the cache may grow). -/
theorem is_king_check_cached_ok (b : Board) (white : Bool)
    (hshape : Shape b.cells) (hcons : Consistent b)
    (hking : ∃ r c q, r < 8 ∧ gridGet b.cells r c = some q ∧
      q.kind = .king ∧ q.white = white) :
    ∃ v b2, is_king_check_cached b white = .ok (v, b2) ∧
      b2.cells = b.cells ∧ b2.cellOf = b.cellOf := by
  unfold is_king_check_cached
  cases hl : cache_lookup b.checkCache (if white then board_hash b ++ "-w" else "-b") with
  | some v => exact ⟨v, b, by simp [hl], rfl, rfl⟩
  | none =>
    obtain ⟨v, hv⟩ := is_king_check_ok b white hshape hcons hking
    refine ⟨v,
      { b with checkCache :=
          ((if white then board_hash b ++ "-w" else "-b"), v) :: b.checkCache },
      ?_, rfl, rfl⟩
    simp [hl, hv]

/-- Every cell a sliding ray yields is enterable: valid-and-empty or an
opposing capture. -/
theorem mem_slide_ray (b : Board) (p : Piece) (dr dc : Int) (t : Cell) :
    ∀ (fuel : Nat) (r c : Int), t ∈ slide_ray b p dr dc fuel r c →
      cell_is_valid_and_empty b t = true ∨ piece_can_hit_on_cell b p t = true := by
  intro fuel
  induction fuel with
  | zero => intro r c h; simp [slide_ray] at h
  | succ n ih =>
    intro r c h
    unfold slide_ray at h
    by_cases h1 : cell_is_valid_and_empty b (r, c) = true
    · rw [if_pos h1] at h
      rcases List.mem_cons.mp h with rfl | h2
      · exact Or.inl h1
      · exact ih _ _ h2
    · rw [if_neg h1] at h
      by_cases h2 : piece_can_hit_on_cell b p (r, c) = true
      · rw [if_pos h2] at h
        rw [List.mem_singleton] at h
        subst h
        exact Or.inr h2
      · rw [if_neg h2] at h
        simp at h

/-- Every reachable cell of any piece kind is enterable. -/
theorem mem_reachable_cases (b : Board) (p : Piece) (row col : Int) (t : Cell)
    (h : t ∈ reachable_from b p row col) :
    cell_is_valid_and_empty b t = true ∨ piece_can_hit_on_cell b p t = true ∨
      piece_can_enter_cell b p t = true := by
  unfold reachable_from at h
  cases hk : p.kind <;> rw [hk] at h
  case pawn =>
    unfold pawn_reachable at h
    cases hw : p.white <;> rw [hw] at h <;>
      simp only [List.mem_append, mem_if_singleton, mem_if_singleton_prop,
        Bool.and_eq_true, decide_eq_true_eq, Bool.false_eq_true, if_true, if_false] at h <;>
    · rcases h with (((⟨h1, rfl⟩ | ⟨⟨_, h1, _⟩, rfl⟩) | ⟨h1, rfl⟩) | ⟨h1, rfl⟩)
      · exact Or.inl h1
      · exact Or.inl h1
      · exact Or.inr (Or.inl h1)
      · exact Or.inr (Or.inl h1)
  case rook =>
    unfold slide_all at h
    rw [List.mem_flatMap] at h
    obtain ⟨d, _, hd⟩ := h
    rcases mem_slide_ray b p d.1 d.2 t 8 _ _ hd with h | h
    · exact Or.inl h
    · exact Or.inr (Or.inl h)
  case bishop =>
    unfold slide_all at h
    rw [List.mem_flatMap] at h
    obtain ⟨d, _, hd⟩ := h
    rcases mem_slide_ray b p d.1 d.2 t 8 _ _ hd with h | h
    · exact Or.inl h
    · exact Or.inr (Or.inl h)
  case queen =>
    unfold slide_all at h
    rw [List.mem_flatMap] at h
    obtain ⟨d, _, hd⟩ := h
    rcases mem_slide_ray b p d.1 d.2 t 8 _ _ hd with h | h
    · exact Or.inl h
    · exact Or.inr (Or.inl h)
  case knight =>
    unfold knight_reachable at h
    rw [List.mem_filterMap] at h
    obtain ⟨d, _, hd⟩ := h
    by_cases h1 : cell_is_valid_and_empty b (row + d.1, col + d.2) = true
    · rw [if_pos h1] at hd
      obtain rfl := Option.some.inj hd
      exact Or.inl h1
    · rw [if_neg h1] at hd
      by_cases h2 : piece_can_hit_on_cell b p (row + d.1, col + d.2) = true
      · rw [if_pos h2] at hd
        obtain rfl := Option.some.inj hd
        exact Or.inr (Or.inl h2)
      · rw [if_neg h2] at hd
        simp at hd
  case king =>
    unfold king_reachable at h
    rw [List.mem_filterMap] at h
    obtain ⟨d, _, hd⟩ := h
    by_cases h1 : piece_can_enter_cell b p (row + d.1, col + d.2) = true
    · rw [if_pos h1] at hd
      obtain rfl := Option.some.inj hd
      exact Or.inr (Or.inr h1)
    · rw [if_neg h1] at hd
      simp at hd

/-- The facts the simulation loop needs about a reachable cell: it is in
range, it is not the mover's own cell, and its occupant (if any) is an
opposing piece. -/
theorem reachable_facts (b : Board) (p : Piece) (row col : Int) (t : Cell)
    (hp : get_cell b (some (row, col)) = some p)
    (h : t ∈ reachable_from b p row col) :
    ValidCell t ∧ t ≠ (row, col) ∧
      (∀ q, get_cell b (some t) = some q → q.white ≠ p.white) := by
  have hvalid_of_some : ∀ q, get_cell b (some t) = some q → is_valid_cell (some t) = true := by
    intro q hq
    cases hvv : is_valid_cell (some t) with
    | false => rw [get_cell_invalid b _ hvv] at hq; cases hq
    | true => rfl
  rcases mem_reachable_cases b p row col t h with h1 | h1 | h1
  · rw [cell_is_valid_and_empty_iff] at h1
    obtain ⟨hv, he⟩ := h1
    refine ⟨(is_valid_cell_iff t).mp hv, ?_, ?_⟩
    · rintro rfl
      rw [hp] at he
      cases he
    · intro q hq
      rw [he] at hq
      cases hq
  · rw [piece_can_hit_on_cell_iff] at h1
    obtain ⟨q, hq, hne⟩ := h1
    refine ⟨(is_valid_cell_iff t).mp (hvalid_of_some q hq), ?_, ?_⟩
    · rintro rfl
      rw [hp] at hq
      obtain rfl := Option.some.inj hq
      exact hne rfl
    · intro q' hq'
      rw [hq] at hq'
      obtain rfl := Option.some.inj hq'
      exact hne
  · rw [piece_can_enter_cell_iff] at h1
    obtain ⟨hv, he⟩ := h1
    refine ⟨(is_valid_cell_iff t).mp hv, ?_, ?_⟩
    · rintro rfl
      rcases he with he | ⟨q, hq, hne⟩
      · rw [hp] at he
        cases he
      · rw [hp] at hq
        obtain rfl := Option.some.inj hq
        exact hne rfl
    · intro q' hq'
      rcases he with he | ⟨q, hq, hne⟩
      · rw [he] at hq'
        cases hq'
      · rw [hq] at hq'
        obtain rfl := Option.some.inj hq'
        exact hne

/-- Coordinates of a valid cell survive the `Int → Nat → Int` round
trip. -/
theorem coe_toNat_cell (t : Cell) (h : ValidCell t) :
    (((t.1.toNat : Nat) : Int), ((t.2.toNat : Nat) : Int)) = t := by
  obtain ⟨h1, _, h3, _⟩ := h
  rw [Int.toNat_of_nonneg h1, Int.toNat_of_nonneg h3]

/-- Valid-cell coordinates convert to in-range row/column indices. -/
theorem validCell_toNat_lt (t : Cell) (h : ValidCell t) :
    t.1.toNat < 8 ∧ t.2.toNat < 8 := by
  obtain ⟨h1, h2, h3, h4⟩ := h
  omega

/-- The grid-level restoration identity of one simulated move: clear the
mover's cell, place the mover on the target, clear the target, place the
mover back, put the original occupant back — the grid is exactly the one
we started from. -/
theorem sim_cells_restore (g : Grid) (p : Piece) (cap : Option Piece)
    (a1 a2 t1 t2 : Nat)
    (hshape : Shape g) (ha1 : a1 < 8) (ha2 : a2 < 8) (ht1 : t1 < 8) (ht2 : t2 < 8)
    (hp : gridGet g a1 a2 = some p)
    (hcap : gridGet g t1 t2 = cap) :
    gridSet (gridSet (gridSet (gridSet (gridSet g a1 a2 none) t1 t2 (some p))
      t1 t2 none) a1 a2 (some p)) t1 t2 cap = g := by
  have s1 : Shape (gridSet g a1 a2 none) := shape_gridSet _ _ _ _ hshape ha1
  have s2 := shape_gridSet _ t1 t2 (some p) s1 ht1
  have s3 := shape_gridSet _ t1 t2 none s2 ht1
  have s4 := shape_gridSet _ a1 a2 (some p) s3 ha1
  have s5 := shape_gridSet _ t1 t2 cap s4 ht1
  apply grid_ext _ _ s5 hshape
  intro r c hr hc
  by_cases e1 : t1 = r ∧ t2 = c
  · obtain ⟨rfl, rfl⟩ := e1
    rw [gridGet_gridSet_same _ _ _ _ s4 ht1 ht2, hcap]
  · have ne1 : ((t1, t2) : Nat × Nat) ≠ (r, c) := by
      simpa [Prod.ext_iff] using e1
    rw [gridGet_gridSet_ne _ _ _ _ _ _ s4 ht1 ne1]
    by_cases e2 : a1 = r ∧ a2 = c
    · obtain ⟨rfl, rfl⟩ := e2
      rw [gridGet_gridSet_same _ _ _ _ s3 ha1 ha2, hp]
    · have ne2 : ((a1, a2) : Nat × Nat) ≠ (r, c) := by
        simpa [Prod.ext_iff] using e2
      rw [gridGet_gridSet_ne _ _ _ _ _ _ s3 ha1 ne2,
        gridGet_gridSet_ne _ _ _ _ _ _ s2 ht1 ne1,
        gridGet_gridSet_ne _ _ _ _ _ _ s1 ht1 ne1,
        gridGet_gridSet_ne _ _ _ _ _ _ hshape ha1 ne2]

/-- Placing a piece through the `set_cell` discipline keeps the
back-reference invariant. -/
theorem consistent_after_place (b0 : Board) (p : Piece) (old t : Cell)
    (cc : List (String × Bool))
    (hshape : Shape b0.cells) (hcons : Consistent b0)
    (hvo : ValidCell old) (hvt : ValidCell t)
    (hold : b0.cellOf p.pid = some old) :
    Consistent
      { cells := gridSet (gridSet b0.cells old.1.toNat old.2.toNat none)
          t.1.toNat t.2.toNat (some p),
        cellOf := fun q => if q = p.pid then some (t.1, t.2) else b0.cellOf q,
        checkCache := cc } := by
  obtain ⟨ho1, ho2⟩ := validCell_toNat_lt old hvo
  obtain ⟨ht1, ht2⟩ := validCell_toNat_lt t hvt
  have s1 : Shape (gridSet b0.cells old.1.toNat old.2.toNat none) :=
    shape_gridSet _ _ _ _ hshape ho1
  have s2 := shape_gridSet _ t.1.toNat t.2.toNat (some p) s1 ht1
  intro r c q hq
  simp only at hq ⊢
  by_cases hrange : r < 8 ∧ c < 8
  · by_cases e1 : t.1.toNat = r ∧ t.2.toNat = c
    · obtain ⟨rfl, rfl⟩ := e1
      rw [gridGet_gridSet_same _ _ _ _ s1 ht1 ht2] at hq
      obtain rfl := Option.some.inj hq
      rw [if_pos rfl]
      rw [show (((t.1.toNat : Nat) : Int), ((t.2.toNat : Nat) : Int)) = (t.1, t.2) from
        coe_toNat_cell t hvt]
    · have ne1 : ((t.1.toNat, t.2.toNat) : Nat × Nat) ≠ (r, c) := by
        simpa [Prod.ext_iff] using e1
      rw [gridGet_gridSet_ne _ _ _ _ _ _ s1 ht1 ne1] at hq
      by_cases e2 : old.1.toNat = r ∧ old.2.toNat = c
      · obtain ⟨rfl, rfl⟩ := e2
        rw [gridGet_gridSet_same _ _ _ _ hshape ho1 ho2] at hq
        cases hq
      · have ne2 : ((old.1.toNat, old.2.toNat) : Nat × Nat) ≠ (r, c) := by
          simpa [Prod.ext_iff] using e2
        rw [gridGet_gridSet_ne _ _ _ _ _ _ hshape ho1 ne2] at hq
        have hq0 := hcons r c q hq
        by_cases e3 : q.pid = p.pid
        · exfalso
          rw [e3, hold] at hq0
          have hold2 : old = ((r : Int), (c : Int)) := Option.some.inj hq0
          apply e2
          constructor
          · rw [hold2]; simp
          · rw [hold2]; simp
        · rw [if_neg e3]
          exact hq0
  · exfalso
    have : gridGet (gridSet (gridSet b0.cells old.1.toNat old.2.toNat none)
        t.1.toNat t.2.toNat (some p)) r c = none :=
      gridGet_oob _ r c s2 (by omega)
    rw [this] at hq
    cases hq

/-- Overwriting the same cell twice keeps only the second write. -/
theorem gridSet_gridSet (g : Grid) (r c : Nat) (v w : Option Piece)
    (hshape : Shape g) (hr : r < 8) (hc : c < 8) :
    gridSet (gridSet g r c v) r c w = gridSet g r c w := by
  have s1 := shape_gridSet g r c v hshape hr
  apply grid_ext _ _ (shape_gridSet _ r c w s1 hr) (shape_gridSet _ r c w hshape hr)
  intro r' c' hr' hc'
  by_cases e : r = r' ∧ c = c'
  · obtain ⟨rfl, rfl⟩ := e
    rw [gridGet_gridSet_same _ _ _ _ s1 hr hc, gridGet_gridSet_same _ _ _ _ hshape hr hc]
  · have ne : ((r, c) : Nat × Nat) ≠ (r', c') := by simpa [Prod.ext_iff] using e
    rw [gridGet_gridSet_ne _ _ _ _ _ _ s1 hr ne,
      gridGet_gridSet_ne _ _ _ _ _ _ hshape hr ne,
      gridGet_gridSet_ne _ _ _ _ _ _ hshape hr ne]

/-- The frame invariant of the simulation loop of `get_valid_cells`: on a
consistent board that keeps a king of the mover's color, the loop raises
nothing and hands back a board whose grid and back-references are exactly
the ones it started from (only the check cache may have grown). -/
theorem valid_cells_loop_frame (p : Piece) (old : Cell) (b0 : Board)
    (hshape0 : Shape b0.cells) (hcons0 : Consistent b0)
    (hvo : ValidCell old)
    (hp : gridGet b0.cells old.1.toNat old.2.toNat = some p)
    (hking : ∃ kr kc k, kr < 8 ∧ gridGet b0.cells kr kc = some k ∧
      k.kind = .king ∧ k.white = p.white) :
    ∀ (targets : List Cell),
      (∀ t ∈ targets, ValidCell t ∧ t ≠ old ∧
        (∀ q, gridGet b0.cells t.1.toNat t.2.toNat = some q → q.white ≠ p.white)) →
      ∀ (b : Board) (acc : List Cell),
        b.cells = b0.cells → b.cellOf = b0.cellOf →
        ∃ res bf, valid_cells_loop p old b targets acc = (.ok res, bf) ∧
          bf.cells = b0.cells ∧ bf.cellOf = b0.cellOf := by
  obtain ⟨ho1, ho2⟩ := validCell_toNat_lt old hvo
  have hold0 : b0.cellOf p.pid = some old := by
    have := hcons0 old.1.toNat old.2.toNat p hp
    rwa [coe_toNat_cell old hvo] at this
  intro targets
  induction targets with
  | nil =>
    intro _ b acc hcells hcellOf
    exact ⟨acc, b, rfl, hcells, hcellOf⟩
  | cons t rest ih =>
    intro htargets b acc hcells hcellOf
    obtain ⟨hvt, hto, hopp⟩ := htargets t (by simp)
    obtain ⟨ht1n, ht2n⟩ := validCell_toNat_lt t hvt
    have holdb : b.cellOf p.pid = some old := by rw [hcellOf]; exact hold0
    have hcap : get_cell b (some t) = gridGet b0.cells t.1.toNat t.2.toNat := by
      rw [get_cell_valid_eq b t hvt, hcells]
    have h1 := set_cell_some_eq b t p old hvt holdb
    rw [hcells, hcellOf] at h1
    have s1i : Shape (gridSet b0.cells old.1.toNat old.2.toNat none) :=
      shape_gridSet _ _ _ _ hshape0 ho1
    have s1 : Shape (gridSet (gridSet b0.cells old.1.toNat old.2.toNat none)
        t.1.toNat t.2.toNat (some p)) := shape_gridSet _ _ _ _ s1i ht1n
    have cons1 := consistent_after_place b0 p old t b.checkCache hshape0 hcons0 hvo hvt hold0
    have king1 : ∃ kr kc k, kr < 8 ∧
        gridGet (gridSet (gridSet b0.cells old.1.toNat old.2.toNat none)
          t.1.toNat t.2.toNat (some p)) kr kc = some k ∧
        k.kind = .king ∧ k.white = p.white := by
      obtain ⟨kr, kc, k, hkr, hkq, hkkind, hkw⟩ := hking
      by_cases ek : old.1.toNat = kr ∧ old.2.toNat = kc
      · obtain ⟨rfl, rfl⟩ := ek
        have hkp : k = p := by
          rw [hp] at hkq
          exact (Option.some.inj hkq).symm
        subst hkp
        exact ⟨t.1.toNat, t.2.toNat, k, ht1n,
          gridGet_gridSet_same _ _ _ _ s1i ht1n ht2n, hkkind, hkw⟩
      · have ekt : ¬(t.1.toNat = kr ∧ t.2.toNat = kc) := by
          rintro ⟨rfl, rfl⟩
          exact hopp k hkq hkw
        have ne1 : ((t.1.toNat, t.2.toNat) : Nat × Nat) ≠ (kr, kc) := by
          simpa [Prod.ext_iff] using ekt
        have ne2 : ((old.1.toNat, old.2.toNat) : Nat × Nat) ≠ (kr, kc) := by
          simpa [Prod.ext_iff] using ek
        refine ⟨kr, kc, k, hkr, ?_, hkkind, hkw⟩
        rw [gridGet_gridSet_ne _ _ _ _ _ _ s1i ht1n ne1,
          gridGet_gridSet_ne _ _ _ _ _ _ hshape0 ho1 ne2]
        exact hkq
    obtain ⟨chk, b2, h2, hc2cells, hc2cellOf⟩ :=
      is_king_check_cached_ok
        { cells := gridSet (gridSet b0.cells old.1.toNat old.2.toNat none)
            t.1.toNat t.2.toNat (some p),
          cellOf := fun q => if q = p.pid then some (t.1, t.2) else b0.cellOf q,
          checkCache := b.checkCache }
        p.white s1 cons1 king1
    have holdb2 : b2.cellOf p.pid = some t := by
      rw [hc2cellOf]
      simp
    have h3 := set_cell_some_eq b2 old p t hvo holdb2
    rw [hc2cells, hc2cellOf] at h3
    -- the board after the piece is moved back
    have s3 : Shape (gridSet (gridSet (gridSet (gridSet b0.cells old.1.toNat old.2.toNat none)
        t.1.toNat t.2.toNat (some p)) t.1.toNat t.2.toNat none)
        old.1.toNat old.2.toNat (some p)) :=
      shape_gridSet _ _ _ _ (shape_gridSet _ _ _ _ s1 ht1n) ho1
    -- restoring the captured occupant
    cases hcapv : gridGet b0.cells t.1.toNat t.2.toNat with
    | none =>
      have h4 := set_cell_none_eq
        { cells := gridSet (gridSet (gridSet (gridSet b0.cells old.1.toNat old.2.toNat none)
            t.1.toNat t.2.toNat (some p)) t.1.toNat t.2.toNat none)
            old.1.toNat old.2.toNat (some p),
          cellOf := fun q => if q = p.pid then some (old.1, old.2)
            else if q = p.pid then some (t.1, t.2) else b0.cellOf q,
          checkCache := b2.checkCache } t hvt
      have hB4cells : gridSet (gridSet (gridSet (gridSet (gridSet b0.cells
          old.1.toNat old.2.toNat none) t.1.toNat t.2.toNat (some p))
          t.1.toNat t.2.toNat none) old.1.toNat old.2.toNat (some p))
          t.1.toNat t.2.toNat none = b0.cells :=
        sim_cells_restore b0.cells p none _ _ _ _ hshape0 ho1 ho2 ht1n ht2n hp hcapv
      have hB4cellOf : (fun q => if q = p.pid then some (old.1, old.2)
          else if q = p.pid then some (t.1, t.2) else b0.cellOf q) = b0.cellOf := by
        funext q
        by_cases e : q = p.pid
        · rw [if_pos e, e, hold0]
        · rw [if_neg e, if_neg e]
      obtain ⟨res, bf, hloop, hbf1, hbf2⟩ :=
        ih (fun x hx => htargets x (by simp [hx]))
          { cells := gridSet (gridSet (gridSet (gridSet (gridSet b0.cells
              old.1.toNat old.2.toNat none) t.1.toNat t.2.toNat (some p))
              t.1.toNat t.2.toNat none) old.1.toNat old.2.toNat (some p))
              t.1.toNat t.2.toNat none,
            cellOf := fun q => if q = p.pid then some (old.1, old.2)
              else if q = p.pid then some (t.1, t.2) else b0.cellOf q,
            checkCache := b2.checkCache }
          (if chk then acc else acc ++ [t]) hB4cells hB4cellOf
      refine ⟨res, bf, ?_, hbf1, hbf2⟩
      simp only [valid_cells_loop, hcap, hcapv, h1, h2, h3, h4]
      exact hloop
    | some cp =>
      have hcpne : cp.pid ≠ p.pid := by
        intro e
        have c1 := hcons0 t.1.toNat t.2.toNat cp hcapv
        rw [coe_toNat_cell t hvt] at c1
        rw [e, hold0] at c1
        exact hto (Option.some.inj c1).symm
      have hcp0 : b0.cellOf cp.pid = some t := by
        have c1 := hcons0 t.1.toNat t.2.toNat cp hcapv
        rwa [coe_toNat_cell t hvt] at c1
      have hcp3 : (fun q => if q = p.pid then some (old.1, old.2)
          else if q = p.pid then some (t.1, t.2) else b0.cellOf q) cp.pid = some t := by
        simp only [if_neg hcpne]
        exact hcp0
      have h4 := set_cell_some_eq
        { cells := gridSet (gridSet (gridSet (gridSet b0.cells old.1.toNat old.2.toNat none)
            t.1.toNat t.2.toNat (some p)) t.1.toNat t.2.toNat none)
            old.1.toNat old.2.toNat (some p),
          cellOf := fun q => if q = p.pid then some (old.1, old.2)
            else if q = p.pid then some (t.1, t.2) else b0.cellOf q,
          checkCache := b2.checkCache } t cp t hvt hcp3
      have hB4cells : gridSet (gridSet (gridSet (gridSet (gridSet (gridSet b0.cells
          old.1.toNat old.2.toNat none) t.1.toNat t.2.toNat (some p))
          t.1.toNat t.2.toNat none) old.1.toNat old.2.toNat (some p))
          t.1.toNat t.2.toNat none) t.1.toNat t.2.toNat (some cp) = b0.cells := by
        rw [gridSet_gridSet _ _ _ _ _ s3 ht1n ht2n]
        exact sim_cells_restore b0.cells p (some cp) _ _ _ _ hshape0 ho1 ho2 ht1n ht2n hp hcapv
      have hB4cellOf : (fun q => if q = cp.pid then some (t.1, t.2)
          else if q = p.pid then some (old.1, old.2)
          else if q = p.pid then some (t.1, t.2) else b0.cellOf q) = b0.cellOf := by
        funext q
        by_cases e1 : q = cp.pid
        · rw [if_pos e1, e1, hcp0]
        · rw [if_neg e1]
          by_cases e2 : q = p.pid
          · rw [if_pos e2, e2, hold0]
          · rw [if_neg e2, if_neg e2]
      obtain ⟨res, bf, hloop, hbf1, hbf2⟩ :=
        ih (fun x hx => htargets x (by simp [hx]))
          { cells := gridSet (gridSet (gridSet (gridSet (gridSet (gridSet b0.cells
              old.1.toNat old.2.toNat none) t.1.toNat t.2.toNat (some p))
              t.1.toNat t.2.toNat none) old.1.toNat old.2.toNat (some p))
              t.1.toNat t.2.toNat none) t.1.toNat t.2.toNat (some cp),
            cellOf := fun q => if q = cp.pid then some (t.1, t.2)
              else if q = p.pid then some (old.1, old.2)
              else if q = p.pid then some (t.1, t.2) else b0.cellOf q,
            checkCache := b2.checkCache }
          (if chk then acc else acc ++ [t]) hB4cells hB4cellOf
      refine ⟨res, bf, ?_, hbf1, hbf2⟩
      simp only [valid_cells_loop, hcap, hcapv, h1, h2, h3, h4]
      exact hloop

/-- Claim C5: for every piece placed on a well-formed board (whose side
has its king on the board, the domain of the check detector), the
legality filter `get_valid_cells` raises nothing and leaves the grid
byte-for-byte identical: every simulated move is exactly undone,
restoring both the moved piece and any temporarily captured piece, so the
fingerprint after the call equals the fingerprint before it. -/
theorem get_valid_cells_frame (b : Board) (p : Piece) (pos : Cell)
    (hWF : WF b)
    (hpos : get_cell b (some pos) = some p)
    (hking : has_king b p.white = true) :
    ∃ res bf, get_valid_cells b p = (.ok res, bf) ∧
      bf.cells = b.cells ∧ board_hash bf = board_hash b := by
  have hshape := WF_shape b hWF
  have hcons := WF_consistent b hWF
  have hv : ValidCell pos := by
    cases hvv : is_valid_cell (some pos) with
    | false => rw [get_cell_invalid b _ hvv] at hpos; cases hpos
    | true => exact (is_valid_cell_iff pos).mp hvv
  have hgrid : gridGet b.cells pos.1.toNat pos.2.toNat = some p := by
    rw [← get_cell_valid_eq b pos hv]
    exact hpos
  have hold0 : b.cellOf p.pid = some pos := by
    have := hcons pos.1.toNat pos.2.toNat p hgrid
    rwa [coe_toNat_cell pos hv] at this
  have hkingE : ∃ kr kc k, kr < 8 ∧ gridGet b.cells kr kc = some k ∧
      k.kind = .king ∧ k.white = p.white := by
    unfold has_king find_king at hking
    obtain ⟨king, hf⟩ := Option.isSome_iff_exists.mp hking
    have hmem := List.mem_of_find?_eq_some hf
    have hpred := List.find?_some hf
    obtain ⟨hw, kr, kc, hkr, hkq⟩ := mem_iterate_elim b p.white king hmem
    refine ⟨kr, kc, king, ?_, hkq, by simpa using hpred, hw⟩
    rw [hshape.1] at hkr
    exact hkr
  have hfacts : ∀ t ∈ reachable_from b p pos.1 pos.2, ValidCell t ∧ t ≠ pos ∧
      (∀ q, gridGet b.cells t.1.toNat t.2.toNat = some q → q.white ≠ p.white) := by
    intro t ht
    obtain ⟨h1, h2, h3⟩ := reachable_facts b p pos.1 pos.2 t hpos ht
    refine ⟨h1, h2, ?_⟩
    intro q hq
    exact h3 q (by rw [get_cell_valid_eq b t h1]; exact hq)
  obtain ⟨res, bf, hloop, hbf1, hbf2⟩ :=
    valid_cells_loop_frame p pos b hshape hcons hv hgrid hkingE
      (reachable_from b p pos.1 pos.2) hfacts b [] rfl rfl
  refine ⟨res, bf, ?_, hbf1, by unfold board_hash; rw [hbf1]⟩
  simp only [get_valid_cells, hold0]
  exact hloop

/-- Witness for C5 on the concrete fixture: the black king of `boardC`
(black king `(0,0)`, white rook `(1,7)`). -/
theorem get_valid_cells_frame_witness :
    (WF boardC ∧ get_cell boardC (some (0, 0)) = some bKing ∧
      has_king boardC bKing.white = true) ∧
    ∃ res bf, get_valid_cells boardC bKing = (.ok res, bf) ∧
      bf.cells = boardC.cells ∧ board_hash bf = board_hash boardC :=
  ⟨⟨by unfold WF; decide, rfl, rfl⟩,
    get_valid_cells_frame boardC bKing (0, 0) (by unfold WF; decide) rfl rfl⟩

/-- A display character is a single non-whitespace character (a piece
letter or `.`), in particular neither a newline nor a space. -/
theorem map_piece_char_spec (a : Option Piece) :
    ∃ c : Char, (map_piece_to_character a).data = [c] ∧ c.isWhitespace = false := by
  match a with
  | none => exact ⟨'.', rfl, by decide⟩
  | some ⟨_, .pawn, true⟩ => exact ⟨'P', rfl, by decide⟩
  | some ⟨_, .pawn, false⟩ => exact ⟨'p', rfl, by decide⟩
  | some ⟨_, .rook, true⟩ => exact ⟨'R', rfl, by decide⟩
  | some ⟨_, .rook, false⟩ => exact ⟨'r', rfl, by decide⟩
  | some ⟨_, .knight, true⟩ => exact ⟨'N', rfl, by decide⟩
  | some ⟨_, .knight, false⟩ => exact ⟨'n', rfl, by decide⟩
  | some ⟨_, .bishop, true⟩ => exact ⟨'B', rfl, by decide⟩
  | some ⟨_, .bishop, false⟩ => exact ⟨'b', rfl, by decide⟩
  | some ⟨_, .queen, true⟩ => exact ⟨'Q', rfl, by decide⟩
  | some ⟨_, .queen, false⟩ => exact ⟨'q', rfl, by decide⟩
  | some ⟨_, .king, true⟩ => exact ⟨'K', rfl, by decide⟩
  | some ⟨_, .king, false⟩ => exact ⟨'k', rfl, by decide⟩

/-- Parsing a display token recovers the color and kind (or the empty
cell). -/
theorem parse_token_display (a : Option Piece) :
    parse_token (map_piece_to_character a).data =
      .ok (match a with | none => none | some p => some (p.white, p.kind)) := by
  match a with
  | none => rfl
  | some p =>
    cases p with
    | mk pid kind white => cases kind <;> cases white <;> rfl

/-- The display character ignores the piece identity. -/
theorem map_piece_pid_irrel (pid : Nat) (p : Piece) :
    map_piece_to_character (some { pid := pid, kind := p.kind, white := p.white }) =
      map_piece_to_character (some p) := by
  cases p with
  | mk ppid pkind pwhite => rfl

/-- `py_split` never returns the empty list. -/
theorem py_split_ne_nil (sep : Char) (l : List Char) : py_split sep l ≠ [] := by
  cases l with
  | nil => simp [py_split]
  | cons c cs =>
    unfold py_split
    cases h : py_split sep cs with
    | nil => simp
    | cons cur more =>
      by_cases hc : c = sep <;> simp [hc]

/-- The defining equation of `py_split` on a cons cell. -/
theorem py_split_cons_eq (sep ch : Char) (rest : List Char) :
    py_split sep (ch :: rest) =
      match py_split sep rest with
      | [] => [[]]
      | cur :: more => if ch = sep then [] :: cur :: more else (ch :: cur) :: more := rfl

/-- Splitting a separator-free string yields the single part. -/
theorem py_split_no_sep (sep : Char) (x : List Char) (h : sep ∉ x) :
    py_split sep x = [x] := by
  induction x with
  | nil => rfl
  | cons c cs ih =>
    have hcs : sep ∉ cs := fun hm => h (List.mem_cons_of_mem c hm)
    have hc : c ≠ sep := fun hcq => h (hcq ▸ List.mem_cons_self c cs)
    rw [py_split_cons_eq, ih hcs]
    simp [hc]

/-- Splitting past a separator peels off the separator-free prefix. -/
theorem py_split_append (sep : Char) (x r : List Char) (h : sep ∉ x) :
    py_split sep (x ++ sep :: r) = x :: py_split sep r := by
  induction x with
  | nil =>
    rw [List.nil_append, py_split_cons_eq]
    cases hs : py_split sep r with
    | nil => exact absurd hs (py_split_ne_nil sep r)
    | cons cur more => simp
  | cons c cs ih =>
    have hcs : sep ∉ cs := fun hm => h (List.mem_cons_of_mem c hm)
    have hc : c ≠ sep := fun hcq => h (hcq ▸ List.mem_cons_self c cs)
    rw [List.cons_append, py_split_cons_eq, ih hcs]
    simp [hc]

/-- Splitting the join recovers the separator-free parts. -/
theorem py_split_join (sep : Char) (ls : List (List Char)) (hne : ls ≠ [])
    (hsep : ∀ l ∈ ls, sep ∉ l) : py_split sep (py_join sep ls) = ls := by
  induction ls with
  | nil => exact absurd rfl hne
  | cons x xs ih =>
    cases xs with
    | nil =>
      show py_split sep (py_join sep [x]) = [x]
      unfold py_join
      exact py_split_no_sep sep x (hsep x (by simp))
    | cons y ys =>
      show py_split sep (x ++ sep :: py_join sep (y :: ys)) = x :: y :: ys
      rw [py_split_append sep x _ (hsep x (by simp))]
      rw [ih (by simp) (fun l hl => hsep l (List.mem_cons_of_mem x hl))]

/-- `dropWhile` is the identity when the first character fails the
predicate. -/
theorem dropWhile_of_head (p : Char → Bool) (l : List Char)
    (h : ∀ c ∈ l.take 1, p c = false) : l.dropWhile p = l := by
  cases l with
  | nil => rfl
  | cons a as =>
    rw [List.dropWhile_cons_of_neg]
    rw [h a (by simp)]
    simp

/-- `py_strip` is the identity on text with non-whitespace ends. -/
theorem py_strip_eq_self (l : List Char)
    (h1 : ∀ c ∈ l.take 1, c.isWhitespace = false)
    (h2 : ∀ c ∈ l.reverse.take 1, c.isWhitespace = false) : py_strip l = l := by
  unfold py_strip
  rw [dropWhile_of_head _ _ h1, dropWhile_of_head _ _ h2, List.reverse_reverse]

/-- Every character of a join is the separator or comes from a part. -/
theorem py_join_chars (sep : Char) (ls : List (List Char)) :
    ∀ c ∈ py_join sep ls, c = sep ∨ ∃ l ∈ ls, c ∈ l := by
  induction ls with
  | nil => intro c hc; simp [py_join] at hc
  | cons x xs ih =>
    cases xs with
    | nil =>
      intro c hc
      exact Or.inr ⟨x, by simp, by simpa [py_join] using hc⟩
    | cons y ys =>
      intro c hc
      rw [show py_join sep (x :: y :: ys) = x ++ sep :: py_join sep (y :: ys) from rfl] at hc
      rcases List.mem_append.mp hc with h | h
      · exact Or.inr ⟨x, by simp, h⟩
      · rcases List.mem_cons.mp h with rfl | h
        · exact Or.inl rfl
        · rcases ih c h with h | ⟨l, hl, hcl⟩
          · exact Or.inl h
          · exact Or.inr ⟨l, List.mem_cons_of_mem x hl, hcl⟩

/-- A join of nonempty parts is nonempty. -/
theorem py_join_ne_nil (sep : Char) (ls : List (List Char)) (hne : ls ≠ [])
    (hall : ∀ l ∈ ls, l ≠ []) : py_join sep ls ≠ [] := by
  cases ls with
  | nil => exact absurd rfl hne
  | cons x xs =>
    cases xs with
    | nil => simpa [py_join] using hall x (by simp)
    | cons y ys =>
      show x ++ sep :: py_join sep (y :: ys) ≠ []
      simp

/-- `take 1` of an append with nonempty prefix. -/
theorem take_one_append {α : Type} (A B : List α) (h : A ≠ []) :
    (A ++ B).take 1 = A.take 1 := by
  cases A with
  | nil => exact absurd rfl h
  | cons a as => rfl

/-- The first character of a join is the first character of the first
part. -/
theorem py_join_take_one (sep : Char) (x : List Char) (xs : List (List Char)) (hx : x ≠ []) :
    (py_join sep (x :: xs)).take 1 = x.take 1 := by
  cases xs with
  | nil => rfl
  | cons y ys =>
    show (x ++ sep :: py_join sep (y :: ys)).take 1 = x.take 1
    exact take_one_append x _ hx

/-- The last character of a join is the last character of the last
part. -/
theorem py_join_reverse_take_one (sep : Char) :
    ∀ (ls : List (List Char)) (x : List Char), (∀ l ∈ ls, l ≠ []) → x ≠ [] →
      (py_join sep (ls ++ [x])).reverse.take 1 = x.reverse.take 1 := by
  intro ls
  induction ls with
  | nil => intro x _ _; rfl
  | cons z zs ih =>
    intro x hall hx
    have hJ : py_join sep (zs ++ [x]) ≠ [] :=
      py_join_ne_nil sep _ (by simp) (by
        intro l hl
        rcases List.mem_append.mp hl with h | h
        · exact hall l (List.mem_cons_of_mem z h)
        · rw [List.mem_singleton.mp h]; exact hx)
    have hJr : (py_join sep (zs ++ [x])).reverse ≠ [] := by
      simpa using hJ
    have step : py_join sep ((z :: zs) ++ [x]) = z ++ sep :: py_join sep (zs ++ [x]) := by
      cases hzs : zs ++ [x] with
      | nil => simp at hzs
      | cons w ws => rw [List.cons_append, hzs]; rfl
    rw [step]
    rw [List.reverse_append, List.reverse_cons]
    rw [List.append_assoc]
    rw [take_one_append _ _ hJr]
    exact ih x (fun l hl => hall l (List.mem_cons_of_mem z hl)) hx

/-- Newlines never occur in a display line. -/
theorem newline_not_mem_row_line (row : List (Option Piece)) : '\n' ∉ row_line row := by
  intro hm
  rcases py_join_chars ' ' _ '\n' hm with h | ⟨l, hl, hcl⟩
  · exact absurd h (by decide)
  · obtain ⟨a, _, rfl⟩ := List.mem_map.mp hl
    obtain ⟨c, hc1, hc2⟩ := map_piece_char_spec a
    rw [hc1, List.mem_singleton] at hcl
    rw [← hcl] at hc2
    exact absurd hc2 (by decide)

/-- A display line of a nonempty row is nonempty. -/
theorem row_line_ne_nil (row : List (Option Piece)) (hne : row ≠ []) :
    row_line row ≠ [] := by
  apply py_join_ne_nil
  · simpa using hne
  · intro l hl
    obtain ⟨a, _, rfl⟩ := List.mem_map.mp hl
    obtain ⟨c, hc1, _⟩ := map_piece_char_spec a
    rw [hc1]
    simp

/-- Stripping and re-splitting a display line recovers the cell
tokens. -/
theorem row_line_split (row : List (Option Piece)) (hne : row ≠ []) :
    py_split ' ' (py_strip (row_line row)) =
      row.map (fun a => (map_piece_to_character a).data) := by
  have htne : row.map (fun a => (map_piece_to_character a).data) ≠ [] := by
    simpa using hne
  have hall : ∀ l ∈ row.map (fun a => (map_piece_to_character a).data),
      ∃ c, l = [c] ∧ c.isWhitespace = false := by
    intro l hl
    obtain ⟨a, _, rfl⟩ := List.mem_map.mp hl
    obtain ⟨c, hc1, hc2⟩ := map_piece_char_spec a
    exact ⟨c, hc1, hc2⟩
  have hallne : ∀ l ∈ row.map (fun a => (map_piece_to_character a).data), l ≠ [] := by
    intro l hl
    obtain ⟨c, rfl, _⟩ := hall l hl
    simp
  have hnosep : ∀ l ∈ row.map (fun a => (map_piece_to_character a).data), ' ' ∉ l := by
    intro l hl
    obtain ⟨c, rfl, hcw⟩ := hall l hl
    intro hm
    rw [List.mem_singleton] at hm
    rw [← hm] at hcw
    exact absurd hcw (by decide)
  have hstrip : py_strip (row_line row) = row_line row := by
    apply py_strip_eq_self
    · cases hts : row.map (fun a => (map_piece_to_character a).data) with
      | nil => exact absurd hts htne
      | cons t0 rest =>
        have ht0 : t0 ∈ row.map (fun a => (map_piece_to_character a).data) := by
          rw [hts]; simp
        obtain ⟨c0, rfl, hc0⟩ := hall t0 ht0
        show ∀ c ∈ (py_join ' ' (row.map (fun a => (map_piece_to_character a).data))).take 1,
          c.isWhitespace = false
        rw [hts, py_join_take_one ' ' [c0] rest (by simp)]
        intro c hc
        simp only [List.take, List.mem_singleton] at hc
        rw [hc]
        exact hc0
    · have hlast_mem := List.getLast_mem htne
      obtain ⟨cl, hcl1, hcl2⟩ := hall _ hlast_mem
      show ∀ c ∈ (py_join ' ' (row.map (fun a => (map_piece_to_character a).data))).reverse.take 1,
        c.isWhitespace = false
      rw [show py_join ' ' (row.map (fun a => (map_piece_to_character a).data)) =
          py_join ' ' ((row.map (fun a => (map_piece_to_character a).data)).dropLast ++
            [(row.map (fun a => (map_piece_to_character a).data)).getLast htne]) from by
        rw [List.dropLast_append_getLast]]
      rw [py_join_reverse_take_one ' ' _ _
        (fun l hl => hallne l (List.dropLast_subset _ hl))
        (by rw [hcl1]; simp)]
      rw [hcl1]
      intro c hc
      simp only [List.reverse_singleton, List.take, List.mem_singleton] at hc
      rw [hc]
      exact hcl2
  rw [hstrip]
  exact py_split_join ' ' _ htne hnosep

/-- The empty grid is 8×8. -/
theorem shape_emptyGrid : Shape emptyGrid := by
  refine ⟨rfl, ?_⟩
  intro row hr
  rw [List.eq_of_mem_replicate hr]
  rfl

/-- The empty grid has no occupants. -/
theorem gridGet_emptyGrid (r c : Nat) : gridGet emptyGrid r c = none := by
  by_cases hr : r < 8
  · by_cases hc : c < 8
    · rw [gridGet_eq]
      unfold emptyGrid
      rw [List.getElem?_replicate, if_pos hr]
      simp only [Option.getD_some]
      rw [List.getElem?_replicate, if_pos hc]
      rfl
    · exact gridGet_oob _ r c shape_emptyGrid (Or.inr (by omega))
  · exact gridGet_oob _ r c shape_emptyGrid (Or.inl (by omega))

/-- One line of the load loop: each parsed token places a fresh piece
with the displayed kind and color on row `7 - rowIdx`; the rest of the
grid and all other back-references are untouched. -/
theorem load_line_go (rowIdx : Nat) (hri : rowIdx < 8) :
    ∀ (entries : List (Option Piece)) (col : Nat) (b : Board),
      Shape b.cells →
      col + entries.length ≤ 8 →
      (∀ j, j < entries.length → gridGet b.cells (7 - rowIdx) (col + j) = none) →
      (∀ j, j < entries.length → b.cellOf (rowIdx * 8 + (col + j)) = none) →
      ∃ b2, load_line rowIdx col b
          (entries.map (fun a => (map_piece_to_character a).data)) = .ok b2 ∧
        Shape b2.cells ∧
        (∀ j, j < entries.length →
          map_piece_to_character (gridGet b2.cells (7 - rowIdx) (col + j)) =
            map_piece_to_character (entries.getD j none)) ∧
        (∀ r c : Nat, ¬(r = 7 - rowIdx ∧ col ≤ c ∧ c < col + entries.length) →
          gridGet b2.cells r c = gridGet b.cells r c) ∧
        (∀ q : Nat, (∀ j, j < entries.length → q ≠ rowIdx * 8 + (col + j)) →
          b2.cellOf q = b.cellOf q) := by
  intro entries
  induction entries with
  | nil =>
    intro col b hshape _ _ _
    exact ⟨b, rfl, hshape, fun j hj => by simp at hj, fun r c _ => rfl, fun q _ => rfl⟩
  | cons a rest ih =>
    intro col b hshape hlen hclear hfresh
    simp only [List.length_cons] at hlen
    cases ha : a with
    | none =>
      obtain ⟨b2, hload, hshape2, hdisp, hunch, hcellOf⟩ :=
        ih (col + 1) b hshape (by omega)
          (fun j hj => by
            have := hclear (j + 1) (by simp; omega)
            rwa [show col + (j + 1) = col + 1 + j by omega] at this)
          (fun j hj => by
            have := hfresh (j + 1) (by simp; omega)
            rwa [show col + (j + 1) = col + 1 + j by omega] at this)
      refine ⟨b2, ?_, hshape2, ?_, ?_, ?_⟩
      · simp only [List.map_cons, load_line, parse_token_display]
        exact hload
      · intro j hj
        cases j with
        | zero =>
          rw [hunch (7 - rowIdx) (col + 0) (by omega)]
          have h0 := hclear 0 (by simp)
          rw [show (col + 0) = col + 0 from rfl] at h0 ⊢
          rw [h0]
          rfl
        | succ j' =>
          have := hdisp j' (by simp at hj; omega)
          rwa [show col + 1 + j' = col + (j' + 1) by omega] at this
      · intro r c hcond
        apply hunch
        intro hx
        apply hcond
        obtain ⟨h1, h2, h3⟩ := hx
        exact ⟨h1, by omega, by simp; omega⟩
      · intro q hq
        apply hcellOf
        intro j hj
        have := hq (j + 1) (by simp; omega)
        rwa [show col + (j + 1) = col + 1 + j by omega] at this
    | some p =>
      have hvcell : ValidCell (7 - (rowIdx : Int), (col : Int)) := by
        unfold ValidCell
        refine ⟨?_, ?_, ?_, ?_⟩ <;> simp only [] <;> omega
      have hfresh0 : b.cellOf (rowIdx * 8 + col) = none := by
        have := hfresh 0 (by simp)
        rwa [show col + 0 = col by omega] at this
      have hset := set_cell_fresh_eq b (7 - (rowIdx : Int), (col : Int))
        { pid := rowIdx * 8 + col, kind := p.kind, white := p.white } hvcell hfresh0
      dsimp only at hset
      rw [show (7 - (rowIdx : Int)).toNat = 7 - rowIdx by omega,
        show ((col : Int)).toNat = col by omega] at hset
      have hshape1 : Shape (gridSet b.cells (7 - rowIdx) col
          (some { pid := rowIdx * 8 + col, kind := p.kind, white := p.white })) :=
        shape_gridSet _ _ _ _ hshape (by omega)
      obtain ⟨b2, hload, hshape2, hdisp, hunch, hcellOf⟩ :=
        ih (col + 1)
          { cells := gridSet b.cells (7 - rowIdx) col
              (some { pid := rowIdx * 8 + col, kind := p.kind, white := p.white }),
            cellOf := fun q => if q = rowIdx * 8 + col
              then some (7 - (rowIdx : Int), (col : Int)) else b.cellOf q,
            checkCache := b.checkCache }
          hshape1 (by omega)
          (fun j hj => by
            show gridGet (gridSet b.cells (7 - rowIdx) col _) (7 - rowIdx) (col + 1 + j) = none
            rw [gridGet_gridSet_ne _ _ _ _ _ _ hshape (by omega)
              (by simp [Prod.ext_iff]; omega)]
            have := hclear (j + 1) (by simp; omega)
            rwa [show col + (j + 1) = col + 1 + j by omega] at this)
          (fun j hj => by
            show (if rowIdx * 8 + (col + 1 + j) = rowIdx * 8 + col then _ else
              b.cellOf (rowIdx * 8 + (col + 1 + j))) = none
            rw [if_neg (by omega)]
            have := hfresh (j + 1) (by simp; omega)
            rwa [show col + (j + 1) = col + 1 + j by omega] at this)
      refine ⟨b2, ?_, hshape2, ?_, ?_, ?_⟩
      · simp only [List.map_cons, load_line, parse_token_display, hset]
        exact hload
      · intro j hj
        cases j with
        | zero =>
          rw [hunch (7 - rowIdx) (col + 0) (by omega)]
          show map_piece_to_character (gridGet (gridSet b.cells (7 - rowIdx) col _)
            (7 - rowIdx) (col + 0)) = _
          rw [show col + 0 = col by omega]
          rw [gridGet_gridSet_same _ _ _ _ hshape (by omega) (by omega)]
          exact map_piece_pid_irrel (rowIdx * 8 + col) p
        | succ j' =>
          have := hdisp j' (by simp at hj; omega)
          rwa [show col + 1 + j' = col + (j' + 1) by omega] at this
      · intro r c hcond
        rw [hunch r c (by
          intro hx
          apply hcond
          obtain ⟨h1, h2, h3⟩ := hx
          exact ⟨h1, by omega, by simp; omega⟩)]
        show gridGet (gridSet b.cells (7 - rowIdx) col _) r c = gridGet b.cells r c
        rcases Nat.lt_or_ge c 8 with hc8 | hc8
        · rw [gridGet_gridSet_ne _ _ _ _ _ _ hshape (by omega) (by
            simp only [ne_eq, Prod.mk.injEq, not_and]
            intro h1 h2
            exact hcond ⟨h1.symm ▸ rfl, by omega, by simp; omega⟩)]
        · rw [gridGet_oob _ r c hshape1 (Or.inr hc8), gridGet_oob _ r c hshape (Or.inr hc8)]
      · intro q hq
        rw [hcellOf q (fun j hj => by
          have := hq (j + 1) (by simp; omega)
          rwa [show col + (j + 1) = col + 1 + j by omega] at this)]
        show (if q = rowIdx * 8 + col then _ else b.cellOf q) = b.cellOf q
        rw [if_neg (by
          have := hq 0 (by simp)
          rwa [show col + 0 = col by omega] at this)]

/-- The outer load loop: each line populates its rank with freshly
created pieces that display exactly like the serialized entries. -/
theorem load_rows_go :
    ∀ (rows : List (List (Option Piece))) (rowIdx : Nat) (b : Board),
      Shape b.cells →
      rowIdx + rows.length ≤ 8 →
      (∀ row ∈ rows, row.length = 8) →
      (∀ i, i < rows.length → ∀ c, c < 8 → gridGet b.cells (7 - (rowIdx + i)) c = none) →
      (∀ i, i < rows.length → ∀ j, j < 8 → b.cellOf ((rowIdx + i) * 8 + j) = none) →
      ∃ b2, load_rows rowIdx b (rows.map row_line) = .ok b2 ∧
        Shape b2.cells ∧
        (∀ i, i < rows.length → ∀ c, c < 8 →
          map_piece_to_character (gridGet b2.cells (7 - (rowIdx + i)) c) =
            map_piece_to_character ((rows.getD i []).getD c none)) ∧
        (∀ r c : Nat, (∀ i, i < rows.length → r ≠ 7 - (rowIdx + i)) →
          gridGet b2.cells r c = gridGet b.cells r c) := by
  intro rows
  induction rows with
  | nil =>
    intro rowIdx b hshape _ _ _ _
    exact ⟨b, rfl, hshape, fun i hi => by simp at hi, fun r c _ => rfl⟩
  | cons row rest ih =>
    intro rowIdx b hshape hlen hall hclear hfresh
    have hrow8 : row.length = 8 := hall row (by simp)
    simp only [List.length_cons] at hlen
    have hri : rowIdx < 8 := by omega
    obtain ⟨b1, hload1, hshape1, hdisp1, hunch1, hcellOf1⟩ :=
      load_line_go rowIdx hri row 0 b hshape (by omega)
        (fun j hj => by
          have := hclear 0 (by simp) j (by omega)
          simpa using this)
        (fun j hj => by
          have := hfresh 0 (by simp) j (by omega)
          simpa using this)
    obtain ⟨b2, hload2, hshape2, hdisp2, hunch2⟩ :=
      ih (rowIdx + 1) b1 hshape1 (by omega)
        (fun r hr => hall r (by simp [hr]))
        (fun i hi c hc => by
          rw [hunch1 (7 - (rowIdx + 1 + i)) c (by
            rintro ⟨h1, _, _⟩
            omega)]
          have := hclear (i + 1) (by simp; omega) c hc
          rwa [show rowIdx + (i + 1) = rowIdx + 1 + i by omega] at this)
        (fun i hi j hj => by
          rw [hcellOf1 _ (fun j' hj' => by
            rw [hrow8] at hj'
            omega)]
          have := hfresh (i + 1) (by simp; omega) j hj
          rwa [show rowIdx + (i + 1) = rowIdx + 1 + i by omega] at this)
    refine ⟨b2, ?_, hshape2, ?_, ?_⟩
    · simp only [List.map_cons, load_rows]
      rw [row_line_split row (by intro h; rw [h] at hrow8; simp at hrow8)]
      rw [hload1]
      exact hload2
    · intro i hi c hc
      cases i with
      | zero =>
        rw [hunch2 (7 - (rowIdx + 0)) c (fun i' hi' => by omega)]
        have := hdisp1 c (by omega)
        rw [show (0 + c : Nat) = c by omega] at this
        simpa using this
      | succ i' =>
        have := hdisp2 i' (by simp at hi; omega) c hc
        rwa [show rowIdx + 1 + i' = rowIdx + (i' + 1) by omega] at this
    · intro r c hcond
      rw [hunch2 r c (fun i hi => by
        have := hcond (i + 1) (by simp; omega)
        rwa [show rowIdx + (i + 1) = rowIdx + 1 + i by omega] at this)]
      apply hunch1
      rintro ⟨h1, _, _⟩
      exact hcond 0 (by simp) (by rw [h1]; omega)

/-- `gridGet` through `getD`. -/
theorem gridGet_getD (g : Grid) (r c : Nat) :
    gridGet g r c = (g.getD r []).getD c none := by
  rw [gridGet_eq, ← List.getD_eq_getElem?_getD, ← List.getD_eq_getElem?_getD]

/-- Reading a reversed 8-row grid. -/
theorem getD_reverse_eight (g : Grid) (hlen : g.length = 8) (i : Nat) (hi : i < 8) :
    g.reverse.getD i [] = g.getD (7 - i) [] := by
  rw [List.getD_eq_getElem?_getD, List.getD_eq_getElem?_getD,
    List.getElem?_reverse (by omega)]
  congr 2
  omega

/-- Display congruence for a single row of cells. -/
theorem flatMap_display_congr (row1 : List (Option Piece)) :
    ∀ (row2 : List (Option Piece)), row1.length = row2.length →
      (∀ c, c < row1.length →
        map_piece_to_character (row1.getD c none) =
          map_piece_to_character (row2.getD c none)) →
      row1.flatMap (fun p => (map_piece_to_character p).data) =
        row2.flatMap (fun p => (map_piece_to_character p).data) := by
  induction row1 with
  | nil =>
    intro row2 hl _
    cases row2 with
    | nil => rfl
    | cons x xs => simp at hl
  | cons a as ihr =>
    intro row2 hl h
    cases row2 with
    | nil => simp at hl
    | cons x xs =>
      simp only [List.flatMap_cons]
      congr 1
      · exact congrArg String.data (by simpa using h 0 (by simp))
      · exact ihr xs (by simpa using hl)
          (fun c hc => by simpa using h (c + 1) (by simp; omega))

/-- Display congruence for a whole list of rows. -/
theorem rows_flatMap_display_congr (l1 : List (List (Option Piece))) :
    ∀ (l2 : List (List (Option Piece))), l1.length = l2.length →
      (∀ i, i < l1.length →
        (l1.getD i []).flatMap (fun p => (map_piece_to_character p).data) =
          (l2.getD i []).flatMap (fun p => (map_piece_to_character p).data)) →
      l1.flatMap (fun row => row.flatMap (fun p => (map_piece_to_character p).data)) =
        l2.flatMap (fun row => row.flatMap (fun p => (map_piece_to_character p).data)) := by
  induction l1 with
  | nil =>
    intro l2 hl _
    cases l2 with
    | nil => rfl
    | cons x xs => simp at hl
  | cons a as ihr =>
    intro l2 hl h
    cases l2 with
    | nil => simp at hl
    | cons x xs =>
      simp only [List.flatMap_cons]
      congr 1
      · simpa using h 0 (by simp)
      · exact ihr xs (by simpa using hl)
          (fun i hi => by simpa using h (i + 1) (by simp; omega))

/-- Two 8×8 grids whose cells display identically have the same
fingerprint. -/
theorem board_hash_congr (b1 b2 : Board) (h1 : Shape b1.cells) (h2 : Shape b2.cells)
    (h : ∀ r c, r < 8 → c < 8 →
      map_piece_to_character (gridGet b1.cells r c) =
        map_piece_to_character (gridGet b2.cells r c)) :
    board_hash b1 = board_hash b2 := by
  unfold board_hash
  congr 1
  apply rows_flatMap_display_congr
  · simp [h1.1, h2.1]
  · intro i hi
    have hi8 : i < 8 := by
      rw [List.length_reverse, h1.1] at hi
      exact hi
    rw [getD_reverse_eight b1.cells h1.1 i hi8, getD_reverse_eight b2.cells h2.1 i hi8]
    have e1 : (b1.cells.getD (7 - i) []).length = 8 := by
      rw [List.getD_eq_getElem?_getD,
        List.getElem?_eq_getElem (show 7 - i < b1.cells.length by rw [h1.1]; omega)]
      simpa using h1.2 _ (List.getElem_mem _)
    have e2 : (b2.cells.getD (7 - i) []).length = 8 := by
      rw [List.getD_eq_getElem?_getD,
        List.getElem?_eq_getElem (show 7 - i < b2.cells.length by rw [h2.1]; omega)]
      simpa using h2.2 _ (List.getElem_mem _)
    apply flatMap_display_congr
    · rw [e1, e2]
    · intro c hc
      rw [← gridGet_getD, ← gridGet_getD]
      exact h (7 - i) c (by omega) (by rw [e1] at hc; exact hc)

/-- Claim C10: serializing a position to the 8-line text format (rank 8
down to rank 1, `.` for empty, uppercase for white and lowercase for
black) and loading it back yields a position whose fingerprint is
identical to the original's. -/
theorem load_save_round_trip (b : Board) (hWF : WF b) :
    ∃ b2, load_from_memory (board_str b) = .ok b2 ∧
      board_hash b2 = board_hash b := by
  have hshape := WF_shape b hWF
  have hlines : py_split '\n' (board_str b).data = b.cells.reverse.map row_line := by
    show py_split '\n' (py_join '\n' (b.cells.reverse.map row_line)) = _
    apply py_split_join
    · intro h
      have := congrArg List.length h
      simp [hshape.1] at this
    · intro l hl
      obtain ⟨row, _, rfl⟩ := List.mem_map.mp hl
      exact newline_not_mem_row_line row
  unfold load_from_memory
  rw [hlines]
  obtain ⟨b2, hload, hshape2, hdisp, _⟩ :=
    load_rows_go b.cells.reverse 0
      { cells := emptyGrid, cellOf := fun _ => none, checkCache := [] }
      shape_emptyGrid (by simp [hshape.1])
      (fun row hr => hshape.2 row (List.mem_reverse.mp hr))
      (fun i _ c _ => gridGet_emptyGrid _ _)
      (fun i _ j _ => rfl)
  refine ⟨b2, hload, ?_⟩
  apply board_hash_congr b2 b hshape2 hshape
  intro r c hr hc
  have hd := hdisp (7 - r) (by simp [hshape.1]; omega) c hc
  rw [show (0 + (7 - r)) = 7 - r by omega, show 7 - (7 - r) = r by omega] at hd
  rw [hd, getD_reverse_eight b.cells hshape.1 (7 - r) (by omega),
    show 7 - (7 - r) = r by omega, ← gridGet_getD]

/-- Witness for C10 on the concrete fixture `boardC`. -/
theorem load_save_round_trip_witness :
    WF boardC ∧ ∃ b2, load_from_memory (board_str boardC) = .ok b2 ∧
      board_hash b2 = board_hash boardC :=
  ⟨by unfold WF; decide, load_save_round_trip boardC (by unfold WF; decide)⟩

/-- Witness for C9 at the concrete out-of-range cell `(8, 3)`. -/
theorem out_of_range_accessors_witness :
    (∃ e, set_cell empty_board (8, 3) none = .error e) ∧
    (((8 : Int) < 0 ∨ 8 ≤ (8 : Int)) → set_cell empty_board (8, 3) none = .error (.invalidRow (8, 3))) ∧
    ((0 ≤ (8 : Int) ∧ (8 : Int) ≤ 7) → ((3 : Int) < 0 ∨ 8 ≤ (3 : Int)) →
      set_cell empty_board (8, 3) none = .error (.invalidColumn (8, 3))) ∧
    get_cell empty_board (some (8, 3)) = none ∧
    is_valid_cell (some (8, 3)) = false ∧
    is_valid_cell none = false :=
  out_of_range_accessors empty_board 8 3 none (by decide)

end PyChess
